import Mathlib

/-!
Verification of numeric-integrate: grid refinement and five quadrature rules

A shallow embedding of `src/numerical_integration.tpp`.

Modelling conventions

* The scalar type `T` of the templates is a type `α`.  The quadrature engine only needs the
  arithmetic operations of `α` (no laws), so its loop lemmas hold for any interpretation of
  `+`, `*`, `/`; theorems phrased "in exact arithmetic" take `α` to be an ordered field.
* A C array is an `Array α`; a null pointer is `none`.  Every element access is checked:
  an access outside the allocated block (undefined behaviour in C++) is the fault
  `Fault.outOfBounds`, a thrown `std::invalid_argument` is `Fault.invalidArgument`.
  An allocation `new T[n]` is taken to succeed.
* `std::size_t` values are natural numbers below `2 ^ 64`.  The products and sums of the
  refinement branch wrap modulo `2 ^ 64` (`size_mul`, `size_add`, `size_sub`); truncated
  subtraction on `ℕ` is written only where a guard of the source keeps the subtraction from
  wrapping.
* `std::numeric_limits<T>::epsilon()` is the parameter `eps`; the integrand `func` and its
  antiderivative `ant` (sine and minus cosine in the source) are parameters.
* `std::abs` is the absolute value of `α`.  The unqualified `abs` of `gen_uniform_grid` and
  `calc_analyt` is `abs_int`: no overload for `T` is visible where the templates are
  defined, so the call is `int abs(int)` on the argument converted to `int`.
-/

namespace NumericIntegrate

/-- The ways a call can fail to return. -/
inductive Fault where
  /-- Thrown `std::invalid_argument`. -/
  | invalidArgument
  /-- An array element outside the allocated block was read or written. -/
  | outOfBounds
  /-- A value whose integer part does not fit a 32-bit `int` was converted to `int`. -/
  | intOverflow
  deriving DecidableEq, Repr

/-- Values of `enum Method::Type`. -/
def Method.Rectangles : Nat := 0
/-- Slot of the trapezoid rule. -/
def Method.Trapeze : Nat := 1
/-- Slot of Simpson's rule. -/
def Method.Simpson : Nat := 2
/-- Slot of the 5-point Newton-Cotes rule. -/
def Method.NewtonCotes : Nat := 3
/-- Slot of the 3-point Gauss rule. -/
def Method.Gauss : Nat := 4
/-- Number of methods. -/
def Method.Count : Nat := 5

/-- Checked read `arr[i]`. -/
def readAt {α : Type} (arr : Array α) (i : Nat) : Except Fault α :=
  match arr[i]? with
  | some v => .ok v
  | none => .error .outOfBounds

/-- Checked write `arr[i] = v`. -/
def writeAt {α : Type} (arr : Array α) (i : Nat) (v : α) : Except Fault (Array α) :=
  if h : i < arr.size then .ok (arr.set ⟨i, h⟩ v) else .error .outOfBounds

/-! ## Quadrature engine (`calculate_numerical_integrals`) -/

section Quadrature

variable {α : Type} [Zero α] [One α] [Add α] [Mul α] [Div α] [NatCast α]

/-- Lambda `rectangles_calc`: `2.0 * step * func[i]`. -/
def rectangles_calc (func : Array α) (step : α) (i : Nat) : Except Fault α := do
  let f ← readAt func i
  pure (((2 : ℕ) : α) * step * f)

/-- Lambda `trapeze_calc`: `(step / 2.0) * (func[i] + func[i + 1])`. -/
def trapeze_calc (func : Array α) (step : α) (i : Nat) : Except Fault α := do
  let f0 ← readAt func i
  let f1 ← readAt func (i + 1)
  let f := f0 + f1
  pure ((step / ((2 : ℕ) : α)) * f)

/-- Lambda `simpson_calc`, weights `{1.0, 4.0, 1.0}`. -/
def simpson_calc (func : Array α) (step : α) (i : Nat) : Except Fault α := do
  let f0 ← readAt func i
  let f1 ← readAt func (i + 1)
  let f2 ← readAt func (i + 2)
  let f := (1 : α) * f0 + ((4 : ℕ) : α) * f1 + (1 : α) * f2
  pure ((step / ((3 : ℕ) : α)) * f)

/-- Lambda `newton_cotes_calc`, weights `{7, 32, 12, 32, 7}`. -/
def newton_cotes_calc (func : Array α) (step : α) (i : Nat) : Except Fault α := do
  let f0 ← readAt func i
  let f1 ← readAt func (i + 1)
  let f2 ← readAt func (i + 2)
  let f3 ← readAt func (i + 3)
  let f4 ← readAt func (i + 4)
  let f := ((7 : ℕ) : α) * f0 + ((32 : ℕ) : α) * f1 + ((12 : ℕ) : α) * f2
            + ((32 : ℕ) : α) * f3 + ((7 : ℕ) : α) * f4
  pure ((((2 : ℕ) : α) / ((45 : ℕ) : α)) * step * f)

/-- Lambda `gauss_calc`, weights `{(5/9)*step, (8/9)*step, (5/9)*step}`. -/
def gauss_calc (func : Array α) (step : α) (i : Nat) : Except Fault α := do
  let w0 := (((5 : ℕ) : α) / ((9 : ℕ) : α)) * step
  let w1 := (((8 : ℕ) : α) / ((9 : ℕ) : α)) * step
  let w2 := (((5 : ℕ) : α) / ((9 : ℕ) : α)) * step
  let f0 ← readAt func i
  let f1 ← readAt func (i + 1)
  let f2 ← readAt func (i + 2)
  pure (w0 * f0 + w1 * f1 + w2 * f2)

/-- The five running sums of the loop. -/
structure Accs (α : Type) where
  /-- Accumulator `rectangles`. -/
  rectangles : α
  /-- Accumulator `trapeze`. -/
  trapeze : α
  /-- Accumulator `simpson`. -/
  simpson : α
  /-- Accumulator `newton_cotes`. -/
  newton_cotes : α
  /-- Accumulator `gauss`. -/
  gauss : α

/-- Statement `if (guard) acc += stencil;` where `stencil` is evaluated only under the guard. -/
def accumulate (guard : Prop) [Decidable guard] (acc : α) (stencil : Except Fault α) :
    Except Fault α :=
  if guard then stencil >>= fun v => pure (acc + v) else pure acc

/-- One iteration of the `for` loop of `calculate_numerical_integrals` at index `i`. -/
def quad_step (func : Array α) (count_nodes : Nat) (step : α) (acc : Accs α) (i : Nat) :
    Except Fault (Accs α) := do
  let rectangles ← accumulate (i % 2 ≠ 0 ∧ i ≠ count_nodes - 1) acc.rectangles
    (rectangles_calc func step i)
  let trapeze ← accumulate (i < count_nodes - 1) acc.trapeze (trapeze_calc func step i)
  let simpson ← accumulate (i % 2 = 0 ∧ i < count_nodes - 2) acc.simpson
    (simpson_calc func step i)
  let newton_cotes ← accumulate (i % 4 = 0 ∧ i < count_nodes - 4) acc.newton_cotes
    (newton_cotes_calc func step i)
  let gauss ← accumulate (i % 2 = 0 ∧ i < count_nodes - 2) acc.gauss (gauss_calc func step i)
  pure ⟨rectangles, trapeze, simpson, newton_cotes, gauss⟩

/-- Function `calculate_numerical_integrals(func, count_nodes, step)`. -/
def calculate_numerical_integrals (func : Option (Array α)) (count_nodes : Nat) (step : α) :
    Except Fault (Array α) :=
  match func with
  | none => .error .invalidArgument
  | some f =>
    if count_nodes < 5 then .error .invalidArgument
    else do
      let acc ← (List.range count_nodes).foldlM (quad_step f count_nodes step)
        ⟨0, 0, 0, 0, 0⟩
      let methods : Array α := mkArray Method.Count 0
      let methods ← writeAt methods Method.Rectangles acc.rectangles
      let methods ← writeAt methods Method.Trapeze acc.trapeze
      let methods ← writeAt methods Method.Simpson acc.simpson
      let methods ← writeAt methods Method.NewtonCotes acc.newton_cotes
      let methods ← writeAt methods Method.Gauss acc.gauss
      pure methods

end Quadrature


section QuadratureTerms

variable {α : Type} [Zero α] [One α] [Add α] [Mul α] [Div α] [NatCast α]

/-- Value `rectangles_calc` returns on an in-bounds stencil. -/
def rectangles_term (f : Array α) (step : α) (i : Nat) : α :=
  ((2 : ℕ) : α) * step * f.getD i 0

/-- Value `trapeze_calc` returns on an in-bounds stencil. -/
def trapeze_term (f : Array α) (step : α) (i : Nat) : α :=
  (step / ((2 : ℕ) : α)) * (f.getD i 0 + f.getD (i + 1) 0)

/-- Value `simpson_calc` returns on an in-bounds stencil. -/
def simpson_term (f : Array α) (step : α) (i : Nat) : α :=
  (step / ((3 : ℕ) : α)) *
    ((1 : α) * f.getD i 0 + ((4 : ℕ) : α) * f.getD (i + 1) 0 + (1 : α) * f.getD (i + 2) 0)

/-- Value `newton_cotes_calc` returns on an in-bounds stencil. -/
def newton_cotes_term (f : Array α) (step : α) (i : Nat) : α :=
  (((2 : ℕ) : α) / ((45 : ℕ) : α)) * step *
    (((7 : ℕ) : α) * f.getD i 0 + ((32 : ℕ) : α) * f.getD (i + 1) 0
      + ((12 : ℕ) : α) * f.getD (i + 2) 0 + ((32 : ℕ) : α) * f.getD (i + 3) 0
      + ((7 : ℕ) : α) * f.getD (i + 4) 0)

/-- Value `gauss_calc` returns on an in-bounds stencil. -/
def gauss_term (f : Array α) (step : α) (i : Nat) : α :=
  (((5 : ℕ) : α) / ((9 : ℕ) : α)) * step * f.getD i 0
    + (((8 : ℕ) : α) / ((9 : ℕ) : α)) * step * f.getD (i + 1) 0
    + (((5 : ℕ) : α) / ((9 : ℕ) : α)) * step * f.getD (i + 2) 0

/-- Sum of `term i` over the indices `i < k` that satisfy `guard`, added to `init` one index
after the other in increasing order. -/
def sumOver (guard : Nat → Bool) (term : Nat → α) (init : α) (k : Nat) : α :=
  ((List.range k).filter guard).foldl (fun s i => s + term i) init

/-- The accumulators after the first `k` iterations of the loop. -/
def accsAfter (f : Array α) (n : Nat) (step : α) (acc0 : Accs α) (k : Nat) : Accs α :=
  { rectangles := sumOver (fun i => decide (i % 2 ≠ 0 ∧ i ≠ n - 1)) (rectangles_term f step)
      acc0.rectangles k
    trapeze := sumOver (fun i => decide (i < n - 1)) (trapeze_term f step) acc0.trapeze k
    simpson := sumOver (fun i => decide (i % 2 = 0 ∧ i < n - 2)) (simpson_term f step)
      acc0.simpson k
    newton_cotes := sumOver (fun i => decide (i % 4 = 0 ∧ i < n - 4)) (newton_cotes_term f step)
      acc0.newton_cotes k
    gauss := sumOver (fun i => decide (i % 2 = 0 ∧ i < n - 2)) (gauss_term f step)
      acc0.gauss k }

end QuadratureTerms

/-! ## The five rules as the specification words them -/

section QuadratureSpec

variable {α : Type} [Field α]

/-- Rectangles: sum over odd `i` with `i ≠ count_nodes - 1` of `2·step·f[i]`. -/
def spec_rectangles (f : Array α) (count_nodes : Nat) (step : α) : α :=
  sumOver (fun i => decide (i % 2 = 1 ∧ i ≠ count_nodes - 1))
    (fun i => 2 * step * f.getD i 0) 0 count_nodes

/-- Trapeze: sum over all `i < count_nodes - 1` of `(step/2)·(f[i]+f[i+1])`. -/
def spec_trapeze (f : Array α) (count_nodes : Nat) (step : α) : α :=
  sumOver (fun i => decide (i < count_nodes - 1))
    (fun i => (step / 2) * (f.getD i 0 + f.getD (i + 1) 0)) 0 count_nodes

/-- Simpson: sum over even `i < count_nodes - 2` of `(step/3)·(f[i]+4f[i+1]+f[i+2])`. -/
def spec_simpson (f : Array α) (count_nodes : Nat) (step : α) : α :=
  sumOver (fun i => decide (i % 2 = 0 ∧ i < count_nodes - 2))
    (fun i => (step / 3) * (f.getD i 0 + 4 * f.getD (i + 1) 0 + f.getD (i + 2) 0)) 0 count_nodes

/-- Newton-Cotes: sum over `i % 4 == 0`, `i < count_nodes - 4` of
`(2/45)·step·(7f[i]+32f[i+1]+12f[i+2]+32f[i+3]+7f[i+4])`. -/
def spec_newton_cotes (f : Array α) (count_nodes : Nat) (step : α) : α :=
  sumOver (fun i => decide (i % 4 = 0 ∧ i < count_nodes - 4))
    (fun i => (2 / 45) * step *
      (7 * f.getD i 0 + 32 * f.getD (i + 1) 0 + 12 * f.getD (i + 2) 0
        + 32 * f.getD (i + 3) 0 + 7 * f.getD (i + 4) 0)) 0 count_nodes

/-- Gauss: sum over even `i < count_nodes - 2` of
`(5/9)·step·f[i] + (8/9)·step·f[i+1] + (5/9)·step·f[i+2]`. -/
def spec_gauss (f : Array α) (count_nodes : Nat) (step : α) : α :=
  sumOver (fun i => decide (i % 2 = 0 ∧ i < count_nodes - 2))
    (fun i => (5 / 9) * step * f.getD i 0 + (8 / 9) * step * f.getD (i + 1) 0
      + (5 / 9) * step * f.getD (i + 2) 0) 0 count_nodes

end QuadratureSpec

/-! ## Machine arithmetic -/

/-- Subtraction of two `std::size_t` values on a 64-bit target: the result wraps modulo
`2 ^ 64` when the subtrahend is the larger one. -/
def size_sub (x y : Nat) : Nat :=
  (x + 2 ^ 64 - y) % 2 ^ 64

/-- Product of two `std::size_t` values on a 64-bit target: it wraps modulo `2 ^ 64`. -/
def size_mul (x y : Nat) : Nat :=
  (x * y) % 2 ^ 64

/-- Sum of two `std::size_t` values on a 64-bit target: it wraps modulo `2 ^ 64`. -/
def size_add (x y : Nat) : Nat :=
  (x + y) % 2 ^ 64

/-- The unqualified call `abs(x)` in `gen_uniform_grid` and `calc_analyt`, which is
`int abs(int)`: `x` is converted to `int` by truncation toward zero, undefined behaviour when
the integer part lies outside the range of a 32-bit `int`, and the absolute value of that
integer (undefined for `INT_MIN`) is converted back to `T`.  The value is the integer part
of `|x|`; it is defined exactly when `|x| < 2 ^ 31`. -/
def abs_int {α : Type} [LinearOrderedField α] [FloorRing α] (x : α) : Except Fault α :=
  if |x| < 2 ^ 31 then .ok ((⌊|x|⌋ : ℤ) : α) else .error .intOverflow

/-! ## Grid builder, function sampler and refiner, error evaluator -/

section Sampler

variable {α : Type} [LinearOrderedField α] [FloorRing α]

/-- Function `gen_uniform_grid(step, count_nodes, a, b)`. -/
def gen_uniform_grid (eps step : α) (count_nodes : Nat) (a b : α) : Except Fault (Array α) :=
  if count_nodes < 2 then .error .invalidArgument
  else do
    let d ← abs_int (b - a)
    if d < eps then .error .invalidArgument
    else if a > b then .error .invalidArgument
    else do
      let array : Array α := mkArray count_nodes 0
      let array ← (List.range count_nodes).foldlM
        (fun array i => writeAt array i (a + step * (i : α))) array
      let last ← readAt array (count_nodes - 1)
      if last ≠ b then writeAt array (count_nodes - 1) b else pure array

/-- The function-local statics of the lambda `calc_analyt`. -/
structure AnalytCache (α : Type) where
  /-- Static `prev_a`. -/
  prev_a : α
  /-- Static `prev_b`. -/
  prev_b : α
  /-- Static `integral`. -/
  integral : α

/-- Lambda `calc_analyt(a, b, ant)` with its statics made explicit: `none` is the state before
the first call, in which the statics are then initialised from that call's arguments.  Returns
the statics after the call and the value returned.  The two comparisons use the unqualified
`abs`; the second is evaluated only when the first is false. -/
def calc_analyt (eps : α) (statics : Option (AnalytCache α)) (a b : α) (ant : α → α) :
    Except Fault (AnalytCache α × α) :=
  let s : AnalytCache α :=
    match statics with
    | some s => s
    | none => { prev_a := a, prev_b := b, integral := ant b - ant a }
  abs_int (a - s.prev_a) >>= fun da =>
    if da < eps then
      pure ({ prev_a := a, prev_b := b, integral := ant b - ant a }, ant b - ant a)
    else
      abs_int (b - s.prev_b) >>= fun db =>
        if db < eps then
          pure ({ prev_a := a, prev_b := b, integral := ant b - ant a }, ant b - ant a)
        else
          pure (s, s.integral)

/-- What a call of `gen_grid_func_and_analyt_integrate` leaves behind: the statics of
`calc_analyt`, the two out-parameters (`none` when the call did not assign them) and the
returned array or the fault. -/
structure Outcome (α : Type) where
  /-- Statics of `calc_analyt` after the call. -/
  statics : Option (AnalytCache α)
  /-- Out-parameter `analytical_integral`. -/
  analytical_integral : Option α
  /-- Out-parameter `count_nodes_out`. -/
  count_nodes_out : Option Nat
  /-- Returned array `arr_func`. -/
  result : Except Fault (Array α)

/-- Body of the cold-start loop: `arr_func[i] = func(grid_x[i])`. -/
def cold_step (func : α → α) (grid_x : Array α) (arr_func : Array α) (i : Nat) :
    Except Fault (Array α) := do
  let x ← readAt grid_x i
  writeAt arr_func i (func x)

/-- Body of the refinement loop: `arr_func[ratio * i] = func_rare[i]` and
`arr_func[ratio * i + 1] = func(grid_x[ratio * i + 1])`, the indices computed in
`std::size_t`. -/
def refine_step (func : α → α) (func_rare grid_x : Array α) (ratio : Nat)
    (arr_func : Array α) (i : Nat) : Except Fault (Array α) := do
  let v ← readAt func_rare i
  let arr_func ← writeAt arr_func (size_mul ratio i) v
  let x ← readAt grid_x (size_add (size_mul ratio i) 1)
  writeAt arr_func (size_add (size_mul ratio i) 1) (func x)

/-- Function `gen_grid_func_and_analyt_integrate`; `statics` is the state of `calc_analyt`
before the call. -/
def gen_grid_func_and_analyt_integrate (eps : α) (func ant : α → α)
    (statics : Option (AnalytCache α)) (func_rare : Option (Array α))
    (count_nodes_init ratio : Nat) (a b : α) : Outcome α :=
  let thrown : Outcome α :=
    { statics := statics, analytical_integral := none, count_nodes_out := none,
      result := .error .invalidArgument }
  if count_nodes_init < 2 then thrown
  else if |b - a| < eps then thrown
  else if a > b then thrown
  else if ratio < 1 then thrown
  else if func_rare.isNone ∧ ratio ≠ 1 then thrown
  else
    match calc_analyt eps statics a b ant with
    | .error e =>
      { statics := statics, analytical_integral := none, count_nodes_out := none,
        result := .error e }
    | .ok analyt =>
      match func_rare with
      | none =>
        let count_nodes_out := count_nodes_init
        let step : α := |b - a| / ((count_nodes_out - 1 : ℕ) : α)
        { statics := some analyt.1, analytical_integral := some analyt.2,
          count_nodes_out := some count_nodes_out,
          result := do
            let grid_x ← gen_uniform_grid eps step count_nodes_out a b
            let arr_func : Array α := mkArray count_nodes_out 0
            (List.range count_nodes_out).foldlM (cold_step func grid_x) arr_func }
      | some func_rare =>
        let count_nodes_out := size_sub (size_mul count_nodes_init ratio) 1
        let step : α := |b - a| / ((size_sub count_nodes_out 1 : ℕ) : α)
        { statics := some analyt.1, analytical_integral := some analyt.2,
          count_nodes_out := some count_nodes_out,
          result := do
            let grid_x ← gen_uniform_grid eps step count_nodes_out a b
            let arr_func : Array α := mkArray count_nodes_out 0
            let arr_func ← (List.range (count_nodes_init - 1)).foldlM
              (refine_step func func_rare grid_x ratio) arr_func
            let last ← readAt func_rare (count_nodes_init - 1)
            writeAt arr_func (size_sub count_nodes_out 1) last }

/-- Lambda `error_calc`: `abs(analytical - numerical) / analytical`. -/
def error_calc (analytical numerical : α) : α :=
  |analytical - numerical| / analytical

/-- Function `calculate_errors(analytical, methods)`. -/
def calculate_errors (analytical : α) (methods : Array α) : Except Fault (Array α) :=
  let errors : Array α := mkArray Method.Count 0
  (List.range' Method.Rectangles (Method.Count - Method.Rectangles)).foldlM
    (fun errors i => do
      let m ← readAt methods i
      writeAt errors i (error_calc analytical m)) errors

end Sampler

section SamplerInvariant

variable {α : Type} [LinearOrderedField α] [FloorRing α]

/-- State of the output array after `k` iterations of the refinement loop: copied slots,
freshly computed slots, and every other slot still holding its initial zero. -/
def RefineInv (func : α → α) (rare grid : Array α) (ratio m k : Nat) (arr : Array α) : Prop :=
  arr.size = m
  ∧ (∀ i, i < k → arr[ratio * i]? = some (rare.getD i 0))
  ∧ (∀ i, i < k → arr[ratio * i + 1]? = some (func (grid.getD (ratio * i + 1) 0)))
  ∧ (∀ j, j < m → (∀ i, i < k → j ≠ ratio * i ∧ j ≠ ratio * i + 1) → arr[j]? = some 0)

end SamplerInvariant

/-! ## Configuration constants and the driver -/

section Driver

variable {α : Type} [LinearOrderedField α] [FloorRing α]

/-- Constant `Task_const::A = -5.5312`. -/
def Task_const.A : α := -(55312 / 10000)

/-- Constant `Task_const::B = 3.32`. -/
def Task_const.B : α := 332 / 100

/-- Constant `Task_const::K = 39`. -/
def Task_const.K : Nat := 39

/-- Constant `Task_const::H = std::abs(B-A)/(K-1)`. -/
def Task_const.H : α := |(Task_const.B : α) - Task_const.A| / ((Task_const.K - 1 : ℕ) : α)

/-- Constant `Task_const::STEP_H_2 = H / 2`. -/
def Task_const.STEP_H_2 : α := (Task_const.H : α) / 2

/-- Read of a variable that was passed as an out-parameter.  `main` reads it only after the
call has returned, which has assigned it; reading a variable no call assigned is undefined
behaviour and is reported as a fault. -/
def readOut {β : Type} (v : Option β) : Except Fault β :=
  match v with
  | some x => .ok x
  | none => .error .outOfBounds

/-- Function `main` up to the two error vectors it hands to `print_error_table`:
`(errors_in_h, errors_in_h_2)`.  The default arguments of the first call are written out. -/
def main_errors (eps : α) (func ant : α → α) : Except Fault (Array α × Array α) := do
  let first := gen_grid_func_and_analyt_integrate eps func ant none none Task_const.K 1
    Task_const.A Task_const.B
  let grid_f_in_h ← first.result
  let analytic_integral ← readOut first.analytical_integral
  let count_nodes_h ← readOut first.count_nodes_out
  let integrals_in_h ← calculate_numerical_integrals (some grid_f_in_h) count_nodes_h
    Task_const.H
  let errors_in_h ← calculate_errors analytic_integral integrals_in_h
  let second := gen_grid_func_and_analyt_integrate eps func ant first.statics
    (some grid_f_in_h) count_nodes_h 2 Task_const.A Task_const.B
  let grid_f_in_h_2 ← second.result
  let analytic_integral ← readOut second.analytical_integral
  let count_nodes_h_2 ← readOut second.count_nodes_out
  let integrals_in_h_2 ← calculate_numerical_integrals (some grid_f_in_h_2) count_nodes_h_2
    Task_const.STEP_H_2
  let errors_in_h_2 ← calculate_errors analytic_integral integrals_in_h_2
  pure (errors_in_h, errors_in_h_2)

end Driver

/-! ## Theorems -/

section QuadratureLoop

set_option linter.unusedSectionVars false

variable {α : Type} [Zero α] [One α] [Add α] [Mul α] [Div α] [NatCast α]

theorem readAt_ok {β : Type} (arr : Array β) (i : Nat) (d : β) (h : i < arr.size) :
    readAt arr i = .ok (arr.getD i d) := by
  simp [readAt, Array.getElem?_eq_getElem h, Array.getD, h]

theorem rectangles_calc_ok (f : Array α) (step : α) (i : Nat) (h : i < f.size) :
    rectangles_calc f step i = .ok (rectangles_term f step i) := by
  simp only [rectangles_calc, readAt_ok f i 0 h, rectangles_term]
  rfl

theorem trapeze_calc_ok (f : Array α) (step : α) (i : Nat) (h : i + 1 < f.size) :
    trapeze_calc f step i = .ok (trapeze_term f step i) := by
  simp only [trapeze_calc, readAt_ok f i 0 (by omega), readAt_ok f (i + 1) 0 h, trapeze_term]
  rfl

theorem simpson_calc_ok (f : Array α) (step : α) (i : Nat) (h : i + 2 < f.size) :
    simpson_calc f step i = .ok (simpson_term f step i) := by
  simp only [simpson_calc, readAt_ok f i 0 (by omega), readAt_ok f (i + 1) 0 (by omega),
    readAt_ok f (i + 2) 0 h, simpson_term]
  rfl

theorem newton_cotes_calc_ok (f : Array α) (step : α) (i : Nat) (h : i + 4 < f.size) :
    newton_cotes_calc f step i = .ok (newton_cotes_term f step i) := by
  simp only [newton_cotes_calc, readAt_ok f i 0 (by omega), readAt_ok f (i + 1) 0 (by omega),
    readAt_ok f (i + 2) 0 (by omega), readAt_ok f (i + 3) 0 (by omega),
    readAt_ok f (i + 4) 0 h, newton_cotes_term]
  rfl

theorem gauss_calc_ok (f : Array α) (step : α) (i : Nat) (h : i + 2 < f.size) :
    gauss_calc f step i = .ok (gauss_term f step i) := by
  simp only [gauss_calc, readAt_ok f i 0 (by omega), readAt_ok f (i + 1) 0 (by omega),
    readAt_ok f (i + 2) 0 h, gauss_term]
  rfl

theorem sumOver_succ (guard : Nat → Bool) (term : Nat → α) (init : α) (k : Nat) :
    sumOver guard term init (k + 1) =
      if guard k then sumOver guard term init k + term k else sumOver guard term init k := by
  unfold sumOver
  rw [List.range_succ, List.filter_append, List.foldl_append]
  by_cases hg : guard k = true <;> simp [List.filter, hg]

theorem accumulate_ok (c : Prop) [Decidable c] (stencil : Except Fault α)
    (x t : α) (h : c → stencil = .ok t) :
    accumulate c x stencil = .ok (if c then x + t else x) := by
  unfold accumulate
  by_cases hc : c
  · simp only [hc, if_true, h hc]; rfl
  · simp only [hc, if_false]; rfl

theorem quad_step_ok (f : Array α) (n : Nat) (step : α) (acc0 : Accs α) (k : Nat)
    (hn : f.size = n) (hk : k < n) :
    quad_step f n step (accsAfter f n step acc0 k) k = .ok (accsAfter f n step acc0 (k + 1)) := by
  unfold quad_step
  rw [accumulate_ok _ _ _ (rectangles_term f step k)
        (fun _ => rectangles_calc_ok f step k (by omega)),
      accumulate_ok _ _ _ (trapeze_term f step k)
        (fun h => trapeze_calc_ok f step k (by omega)),
      accumulate_ok _ _ _ (simpson_term f step k)
        (fun h => simpson_calc_ok f step k (by omega)),
      accumulate_ok _ _ _ (newton_cotes_term f step k)
        (fun h => newton_cotes_calc_ok f step k (by omega)),
      accumulate_ok _ _ _ (gauss_term f step k)
        (fun h => gauss_calc_ok f step k (by omega))]
  show Except.ok _ = Except.ok _
  simp only [accsAfter, sumOver_succ, decide_eq_true_eq]

theorem quad_loop_ok (f : Array α) (n : Nat) (step : α) (acc0 : Accs α) (hn : f.size = n)
    (k : Nat) (hk : k ≤ n) :
    (List.range k).foldlM (quad_step f n step) acc0 = .ok (accsAfter f n step acc0 k) := by
  induction k with
  | zero => rfl
  | succ k ih =>
    rw [List.range_succ, List.foldlM_append, ih (by omega)]
    simp only [List.foldlM_cons, List.foldlM_nil]
    show (quad_step f n step (accsAfter f n step acc0 k) k >>= fun a => pure a) = _
    rw [quad_step_ok f n step acc0 k hn (by omega)]
    rfl

end QuadratureLoop


section QuadratureSpecProofs

variable {α : Type} [Field α]

theorem rectangles_sum_eq_spec (f : Array α) (n : Nat) (step : α) :
    sumOver (fun i => decide (i % 2 ≠ 0 ∧ i ≠ n - 1)) (rectangles_term f step) 0 n
      = spec_rectangles f n step := by
  have hg : (fun i => decide (i % 2 ≠ 0 ∧ i ≠ n - 1))
      = (fun i => decide (i % 2 = 1 ∧ i ≠ n - 1)) := by
    funext i
    have : (i % 2 ≠ 0) = (i % 2 = 1) := propext ⟨fun h => by omega, fun h => by omega⟩
    simp only [this]
  have ht : rectangles_term f step = fun i => 2 * step * f.getD i 0 := by
    funext i; simp only [rectangles_term, Nat.cast_ofNat]
  rw [hg, ht]; rfl

theorem trapeze_sum_eq_spec (f : Array α) (n : Nat) (step : α) :
    sumOver (fun i => decide (i < n - 1)) (trapeze_term f step) 0 n = spec_trapeze f n step := by
  have ht : trapeze_term f step = fun i => (step / 2) * (f.getD i 0 + f.getD (i + 1) 0) := by
    funext i; simp only [trapeze_term, Nat.cast_ofNat]
  rw [ht]; rfl

theorem simpson_sum_eq_spec (f : Array α) (n : Nat) (step : α) :
    sumOver (fun i => decide (i % 2 = 0 ∧ i < n - 2)) (simpson_term f step) 0 n
      = spec_simpson f n step := by
  have ht : simpson_term f step
      = fun i => (step / 3) * (f.getD i 0 + 4 * f.getD (i + 1) 0 + f.getD (i + 2) 0) := by
    funext i; simp only [simpson_term, Nat.cast_ofNat, one_mul]
  rw [ht]; rfl

theorem newton_cotes_sum_eq_spec (f : Array α) (n : Nat) (step : α) :
    sumOver (fun i => decide (i % 4 = 0 ∧ i < n - 4)) (newton_cotes_term f step) 0 n
      = spec_newton_cotes f n step := by
  have ht : newton_cotes_term f step = fun i => (2 / 45) * step *
      (7 * f.getD i 0 + 32 * f.getD (i + 1) 0 + 12 * f.getD (i + 2) 0
        + 32 * f.getD (i + 3) 0 + 7 * f.getD (i + 4) 0) := by
    funext i; simp only [newton_cotes_term, Nat.cast_ofNat]
  rw [ht]; rfl

theorem gauss_sum_eq_spec (f : Array α) (n : Nat) (step : α) :
    sumOver (fun i => decide (i % 2 = 0 ∧ i < n - 2)) (gauss_term f step) 0 n
      = spec_gauss f n step := by
  have ht : gauss_term f step = fun i => (5 / 9) * step * f.getD i 0
      + (8 / 9) * step * f.getD (i + 1) 0 + (5 / 9) * step * f.getD (i + 2) 0 := by
    funext i; simp only [gauss_term, Nat.cast_ofNat]
  rw [ht]; rfl

/-- C1: on a sampled array of length `count_nodes ≥ 5`, `calculate_numerical_integrals`
returns the 5-slot vector (Rectangles, Trapeze, Simpson, NewtonCotes, Gauss), each slot being
the sum of its rule's stencil formula over the indices its predicate selects, accumulated in
increasing index order. -/
theorem calculate_numerical_integrals_eq_rules (f : Array α) (count_nodes : Nat) (step : α)
    (hsize : f.size = count_nodes) (h5 : 5 ≤ count_nodes) :
    calculate_numerical_integrals (some f) count_nodes step
      = .ok #[spec_rectangles f count_nodes step, spec_trapeze f count_nodes step,
              spec_simpson f count_nodes step, spec_newton_cotes f count_nodes step,
              spec_gauss f count_nodes step] := by
  unfold calculate_numerical_integrals
  simp only [not_lt.mpr h5, if_false]
  rw [quad_loop_ok f count_nodes step _ hsize count_nodes le_rfl]
  simp only [accsAfter, rectangles_sum_eq_spec, trapeze_sum_eq_spec, simpson_sum_eq_spec,
    newton_cotes_sum_eq_spec, gauss_sum_eq_spec]
  rfl

/-- Instance of C1 on seven samples with step `1/2`. -/
theorem calculate_numerical_integrals_eq_rules_witness :
    calculate_numerical_integrals (some #[(1 : ℚ), 2, 3, 4, 5, 6, 7]) 7 (1 / 2)
      = .ok #[spec_rectangles #[(1 : ℚ), 2, 3, 4, 5, 6, 7] 7 (1 / 2),
              spec_trapeze #[(1 : ℚ), 2, 3, 4, 5, 6, 7] 7 (1 / 2),
              spec_simpson #[(1 : ℚ), 2, 3, 4, 5, 6, 7] 7 (1 / 2),
              spec_newton_cotes #[(1 : ℚ), 2, 3, 4, 5, 6, 7] 7 (1 / 2),
              spec_gauss #[(1 : ℚ), 2, 3, 4, 5, 6, 7] 7 (1 / 2)] :=
  calculate_numerical_integrals_eq_rules _ 7 (1 / 2) rfl (by decide)

end QuadratureSpecProofs


/-! ### Checked accesses and counted loops -/

section Loops

theorem ok_bind {β γ : Type} (x : β) (f : β → Except Fault γ) :
    (Except.ok x >>= f) = f x := rfl

theorem writeAt_ok {β : Type} (arr : Array β) (i : Nat) (v : β) (h : i < arr.size) :
    writeAt arr i v = .ok (arr.set ⟨i, h⟩ v) := by
  simp [writeAt, h]

theorem readAt_of_getElem? {β : Type} (arr : Array β) (i : Nat) (v : β) (h : arr[i]? = some v) :
    readAt arr i = .ok v := by
  simp [readAt, h]

/-- A counted loop `for (i = 0; i < n; i++) s = body(s, i)` whose body keeps an invariant
runs to completion and ends in a state satisfying the invariant at `n`. -/
theorem foldlM_range_inv {σ : Type} (body : σ → Nat → Except Fault σ) (P : Nat → σ → Prop)
    (n : Nat) (s0 : σ) (h0 : P 0 s0)
    (hstep : ∀ i s, i < n → P i s → ∃ s', body s i = .ok s' ∧ P (i + 1) s') :
    ∃ s, (List.range n).foldlM body s0 = .ok s ∧ P n s := by
  suffices h : ∀ k, k ≤ n → ∃ s, (List.range k).foldlM body s0 = .ok s ∧ P k s from h n le_rfl
  intro k
  induction k with
  | zero => exact fun _ => ⟨s0, rfl, h0⟩
  | succ k ih =>
    intro hk
    obtain ⟨s, hs, hP⟩ := ih (by omega)
    obtain ⟨s', hs', hP'⟩ := hstep k s (by omega) hP
    refine ⟨s', ?_, hP'⟩
    rw [List.range_succ, List.foldlM_append, hs]
    simp only [List.foldlM_cons, List.foldlM_nil]
    show (body s k >>= fun a => pure a) = _
    rw [hs']
    rfl

end Loops

/-! ### Grid builder -/

section Grid

variable {α : Type} [LinearOrderedField α]

/-- The filling loop of `gen_uniform_grid` completes and stores `a + step * i` in slot `i`. -/
theorem grid_fill_ok (step a : α) (n : Nat) :
    ∃ arr : Array α,
      (List.range n).foldlM (fun array i => writeAt array i (a + step * (i : α)))
        (mkArray n (0 : α)) = .ok arr
      ∧ arr.size = n ∧ ∀ j, j < n → arr[j]? = some (a + step * (j : α)) := by
  obtain ⟨arr, h, hsz, hP⟩ := foldlM_range_inv
    (fun array i => writeAt array i (a + step * (i : α)))
    (fun k (arr : Array α) => arr.size = n ∧ ∀ j, j < k → arr[j]? = some (a + step * (j : α)))
    n (mkArray n (0 : α)) ⟨Array.size_mkArray n 0, fun j hj => absurd hj (Nat.not_lt_zero j)⟩
    (by
      intro i s hi ⟨hsz, hP⟩
      have hlt : i < s.size := by omega
      refine ⟨s.set ⟨i, hlt⟩ (a + step * (i : α)), writeAt_ok s i _ hlt, ?_, ?_⟩
      · rw [Array.size_set]; exact hsz
      · intro j hj
        rw [Array.get?_set]
        by_cases hij : i = j
        · subst hij; simp
        · simp only [hij, if_false]
          exact hP j (by omega))
  exact ⟨arr, h, hsz, hP⟩

end Grid

section GridGuarded

variable {α : Type} [LinearOrderedField α] [FloorRing α]

/-- The unqualified `abs` succeeds and returns the integer part when the value fits an `int`. -/
theorem abs_int_ok (x : α) (h : |x| < 2 ^ 31) : abs_int x = .ok ((⌊|x|⌋ : ℤ) : α) := by
  unfold abs_int
  rw [if_pos h]

/-- Whenever the integer part of `|b - a|` is at least `eps`, so is `|b - a|`. -/
theorem abs_ge_of_floor_ge (eps x : α) (h : eps ≤ ((⌊|x|⌋ : ℤ) : α)) : ¬ |x| < eps :=
  not_lt.mpr (le_trans h (Int.floor_le |x|))

/-- Closed form of what `gen_uniform_grid` returns on arguments that pass its guards. -/
theorem gen_uniform_grid_ok (eps step a b : α) (n : Nat) (hn : 2 ≤ n)
    (hint : |b - a| < 2 ^ 31) (hfloor : eps ≤ ((⌊|b - a|⌋ : ℤ) : α)) (hab : ¬ a > b) :
    ∃ grid : Array α, gen_uniform_grid eps step n a b = .ok grid ∧ grid.size = n
      ∧ (∀ i, i < n - 1 → grid[i]? = some (a + step * (i : α)))
      ∧ grid[n - 1]? = some b := by
  obtain ⟨arr, hfill, hsz, hP⟩ := grid_fill_ok step a n
  have hlast : readAt arr (n - 1) = .ok (a + step * ((n - 1 : ℕ) : α)) :=
    readAt_of_getElem? arr (n - 1) _ (hP (n - 1) (by omega))
  have hlt : n - 1 < arr.size := by omega
  unfold gen_uniform_grid
  rw [if_neg (not_lt.mpr hn), abs_int_ok _ hint, ok_bind, if_neg (not_lt.mpr hfloor),
    if_neg hab]
  dsimp only
  rw [hfill, ok_bind, hlast, ok_bind]
  by_cases hb : a + step * ((n - 1 : ℕ) : α) = b
  · refine ⟨arr, ?_, hsz, fun i hi => hP i (by omega), ?_⟩
    · simp only [hb, ne_eq, not_true_eq_false, if_false]; rfl
    · rw [hP (n - 1) (by omega), hb]
  · refine ⟨arr.set ⟨n - 1, hlt⟩ b, ?_, ?_, ?_, ?_⟩
    · simp only [ne_eq, hb, not_false_eq_true, if_true]
      exact writeAt_ok arr (n - 1) b hlt
    · rw [Array.size_set]; exact hsz
    · intro i hi
      rw [Array.get?_set]
      have hne : ¬ (n - 1 = i) := by omega
      simp only [hne, if_false]
      exact hP i (by omega)
    · rw [Array.get?_set]; simp

end GridGuarded

/-! ### Function sampler and refiner -/

section SamplerProofs

variable {α : Type} [LinearOrderedField α]

theorem getD_of_getElem? {β : Type} (arr : Array β) (i : Nat) (v d : β)
    (h : arr[i]? = some v) : arr.getD i d = v := by
  rw [Array.getD_eq_get?, h]; rfl

theorem getElem?_eq_getD {β : Type} (arr : Array β) (i : Nat) (d : β) (h : i < arr.size) :
    arr[i]? = some (arr.getD i d) := by
  simp [Array.getElem?_eq_getElem h, Array.getD, h]

/-- A product that fits `std::size_t` is not changed by the wrap. -/
theorem size_mul_eq (x y : Nat) (h : x * y < 2 ^ 64) : size_mul x y = x * y :=
  Nat.mod_eq_of_lt h

/-- A sum that fits `std::size_t` is not changed by the wrap. -/
theorem size_add_eq (x y : Nat) (h : x + y < 2 ^ 64) : size_add x y = x + y :=
  Nat.mod_eq_of_lt h

/-- A difference of `std::size_t` values that does not go below zero is the plain one. -/
theorem size_sub_eq (x y : Nat) (hy : y ≤ x) (hx : x < 2 ^ 64) : size_sub x y = x - y := by
  unfold size_sub; omega

theorem mul_succ_le_of_lt (r i k : Nat) (h : i < k) : r * i + r ≤ r * k := by
  have := Nat.mul_le_mul_left r (Nat.succ_le_of_lt h)
  rwa [Nat.mul_succ] at this

/-- The cold-start loop completes and stores `func(grid_x[i])` in every slot. -/
theorem cold_loop_ok (func : α → α) (grid : Array α) (n : Nat) (hg : grid.size = n) :
    ∃ arr : Array α,
      (List.range n).foldlM (cold_step func grid) (mkArray n (0 : α)) = .ok arr
      ∧ arr.size = n ∧ ∀ j, j < n → arr[j]? = some (func (grid.getD j 0)) := by
  obtain ⟨arr, h, hsz, hP⟩ := foldlM_range_inv (cold_step func grid)
    (fun k (arr : Array α) => arr.size = n ∧ ∀ j, j < k → arr[j]? = some (func (grid.getD j 0)))
    n (mkArray n (0 : α)) ⟨Array.size_mkArray n 0, fun j hj => absurd hj (Nat.not_lt_zero j)⟩
    (by
      intro i s hi ⟨hsz, hP⟩
      have hlt : i < s.size := by omega
      refine ⟨s.set ⟨i, hlt⟩ (func (grid.getD i 0)), ?_, ?_, ?_⟩
      · unfold cold_step
        rw [readAt_ok grid i 0 (by omega), ok_bind]
        exact writeAt_ok s i _ hlt
      · rw [Array.size_set]; exact hsz
      · intro j hj
        rw [Array.get?_set]
        by_cases hij : i = j
        · subst hij; simp
        · simp only [hij, if_false]
          exact hP j (by omega))
  exact ⟨arr, h, hsz, hP⟩

/-- The refinement loop completes for `ratio ≥ 2` when `n * ratio` fits `std::size_t`, and
establishes `RefineInv`. -/
theorem refine_loop_ok (func : α → α) (rare grid : Array α) (n ratio : Nat)
    (hn : 2 ≤ n) (hr : 2 ≤ ratio) (hw : n * ratio < 2 ^ 64) (hrare : rare.size = n)
    (hg : grid.size = n * ratio - 1) :
    ∃ arr : Array α,
      (List.range (n - 1)).foldlM (refine_step func rare grid ratio)
        (mkArray (n * ratio - 1) (0 : α)) = .ok arr
      ∧ RefineInv func rare grid ratio (n * ratio - 1) (n - 1) arr := by
  apply foldlM_range_inv (refine_step func rare grid ratio)
    (fun k arr => RefineInv func rare grid ratio (n * ratio - 1) k arr)
  · refine ⟨Array.size_mkArray _ 0, fun i hi => absurd hi (Nat.not_lt_zero i),
      fun i hi => absurd hi (Nat.not_lt_zero i), fun j hj _ => ?_⟩
    rw [Array.getElem?_mkArray]; simp [hj]
  · intro k s hk ⟨hsz, hcopy, hfresh, hzero⟩
    have hmul : ratio * k + ratio ≤ ratio * (n - 1) := mul_succ_le_of_lt ratio k (n - 1) hk
    have hmul2 : ratio * (n - 1) + ratio = n * ratio := by
      have : n - 1 + 1 = n := by omega
      calc ratio * (n - 1) + ratio = ratio * (n - 1 + 1) := by rw [Nat.mul_succ]
        _ = n * ratio := by rw [this, Nat.mul_comm]
    have h0 : ratio * k < s.size := by omega
    let s1 := s.set ⟨ratio * k, h0⟩ (rare.getD k 0)
    have h1 : ratio * k + 1 < s1.size := by
      show ratio * k + 1 < (s.set ⟨ratio * k, h0⟩ (rare.getD k 0)).size
      rw [Array.size_set]; omega
    refine ⟨s1.set ⟨ratio * k + 1, h1⟩ (func (grid.getD (ratio * k + 1) 0)), ?_, ?_, ?_, ?_, ?_⟩
    · unfold refine_step
      rw [size_mul_eq ratio k (by omega), size_add_eq (ratio * k) 1 (by omega),
        readAt_ok rare k 0 (by omega), ok_bind, writeAt_ok s (ratio * k) _ h0, ok_bind,
        readAt_ok grid (ratio * k + 1) 0 (by omega), ok_bind]
      exact writeAt_ok s1 (ratio * k + 1) _ h1
    · rw [Array.size_set, Array.size_set]; exact hsz
    · intro i hi
      rw [Array.get?_set, Array.get?_set]
      by_cases hik : i = k
      · subst hik
        have : ¬ (ratio * i + 1 = ratio * i) := by omega
        simp [this]
      · have hlt : i < k := by omega
        have := mul_succ_le_of_lt ratio i k hlt
        have e1 : ¬ (ratio * k + 1 = ratio * i) := by omega
        have e2 : ¬ (ratio * k = ratio * i) := by omega
        simp only [e1, e2, if_false]
        exact hcopy i hlt
    · intro i hi
      rw [Array.get?_set, Array.get?_set]
      by_cases hik : i = k
      · subst hik; simp
      · have hlt : i < k := by omega
        have := mul_succ_le_of_lt ratio i k hlt
        have e1 : ¬ (ratio * k + 1 = ratio * i + 1) := by omega
        have e2 : ¬ (ratio * k = ratio * i + 1) := by omega
        simp only [e1, e2, if_false]
        exact hfresh i hlt
    · intro j hj hne
      rw [Array.get?_set, Array.get?_set]
      have hk' := hne k (Nat.lt_succ_self k)
      have e1 : ¬ (ratio * k + 1 = j) := fun h => hk'.2 h.symm
      have e2 : ¬ (ratio * k = j) := fun h => hk'.1 h.symm
      simp only [e1, e2, if_false]
      exact hzero j hj (fun i hi => hne i (Nat.lt_succ_of_lt hi))

end SamplerProofs

section SamplerGuarded

variable {α : Type} [LinearOrderedField α] [FloorRing α]

/-- When the differences `a - prev_a` and `b - prev_b` fit an `int` (always so before the
first call, where both are zero), `calc_analyt` returns. -/
theorem calc_analyt_ok (eps : α) (statics : Option (AnalytCache α)) (a b : α) (ant : α → α)
    (hst : ∀ s, statics = some s → |a - s.prev_a| < 2 ^ 31 ∧ |b - s.prev_b| < 2 ^ 31) :
    ∃ r, calc_analyt eps statics a b ant = .ok r := by
  have key : ∀ s : AnalytCache α, |a - s.prev_a| < 2 ^ 31 → |b - s.prev_b| < 2 ^ 31 →
      ∃ r, (abs_int (a - s.prev_a) >>= fun da =>
        if da < eps then
          (pure ({ prev_a := a, prev_b := b, integral := ant b - ant a }, ant b - ant a) :
            Except Fault (AnalytCache α × α))
        else
          abs_int (b - s.prev_b) >>= fun db =>
            if db < eps then
              pure ({ prev_a := a, prev_b := b, integral := ant b - ant a }, ant b - ant a)
            else
              pure (s, s.integral)) = .ok r := by
    intro s h1 h2
    rw [abs_int_ok _ h1, ok_bind]
    split_ifs with c1
    · exact ⟨_, rfl⟩
    · rw [abs_int_ok _ h2, ok_bind]
      split_ifs with c2
      · exact ⟨_, rfl⟩
      · exact ⟨_, rfl⟩
  have h0 : |(0 : α)| < 2 ^ 31 := by rw [abs_zero]; positivity
  cases statics with
  | none =>
    exact key { prev_a := a, prev_b := b, integral := ant b - ant a }
      (by rw [sub_self]; exact h0) (by rw [sub_self]; exact h0)
  | some s =>
    obtain ⟨h1, h2⟩ := hst s rfl
    exact key s h1 h2

/-- What a refinement call with `ratio ≥ 2` on a coarse array of length `n ≥ 2` produces when
`n * ratio` fits `std::size_t` and the integer part of `|b - a|` passes the grid guard. -/
theorem refinement_ok (eps : α) (func ant : α → α) (statics : Option (AnalytCache α))
    (rare : Array α) (n ratio : Nat) (a b : α)
    (hn : 2 ≤ n) (hr : 2 ≤ ratio) (hw : n * ratio < 2 ^ 64) (hrare : rare.size = n)
    (hint : |b - a| < 2 ^ 31) (hfloor : eps ≤ ((⌊|b - a|⌋ : ℤ) : α)) (hab : ¬ a > b)
    (hst : ∀ s, statics = some s → |a - s.prev_a| < 2 ^ 31 ∧ |b - s.prev_b| < 2 ^ 31) :
    (gen_grid_func_and_analyt_integrate eps func ant statics (some rare) n ratio a b).count_nodes_out
        = some (n * ratio - 1)
    ∧ ∃ grid arr : Array α,
        gen_uniform_grid eps (|b - a| / ((n * ratio - 1 - 1 : ℕ) : α)) (n * ratio - 1) a b
          = .ok grid
        ∧ (gen_grid_func_and_analyt_integrate eps func ant statics (some rare) n ratio a b).result
          = .ok arr
        ∧ arr.size = n * ratio - 1
        ∧ (∀ i, i < n - 1 → arr[ratio * i]? = some (rare.getD i 0))
        ∧ (∀ i, i < n - 1 →
            arr[ratio * i + 1]? = some (func (grid.getD (ratio * i + 1) 0)))
        ∧ arr[n * ratio - 2]? = some (rare.getD (n - 1) 0)
        ∧ (∀ j, j < n * ratio - 2 → (∀ i, i < n - 1 → j ≠ ratio * i ∧ j ≠ ratio * i + 1) →
            arr[j]? = some 0) := by
  have hge : 4 ≤ n * ratio := Nat.mul_le_mul hn hr
  obtain ⟨grid, hgrid, hgsz, -, -⟩ := gen_uniform_grid_ok eps
    (|b - a| / ((n * ratio - 1 - 1 : ℕ) : α)) a b (n * ratio - 1) (by omega) hint hfloor hab
  obtain ⟨arr, hloop, hsz, hcopy, hfresh, hzero⟩ :=
    refine_loop_ok func rare grid n ratio hn hr hw hrare hgsz
  obtain ⟨r, hca⟩ := calc_analyt_ok eps statics a b ant hst
  have heps : ¬ |b - a| < eps := abs_ge_of_floor_ge eps (b - a) hfloor
  have hlt : n * ratio - 1 - 1 < arr.size := by omega
  have hr1 : ¬ ratio < 1 := by omega
  have e1 : size_sub (size_mul n ratio) 1 = n * ratio - 1 := by
    rw [size_mul_eq n ratio hw, size_sub_eq _ 1 (by omega) hw]
  have e2 : size_sub (n * ratio - 1) 1 = n * ratio - 1 - 1 :=
    size_sub_eq _ 1 (by omega) (by omega)
  simp only [gen_grid_func_and_analyt_integrate, not_lt.mpr hn, heps, hab, hr1,
    Option.isNone_some, Bool.false_eq_true, false_and, if_false, true_and, hca, e1, e2]
  refine ⟨grid, arr.set ⟨n * ratio - 1 - 1, hlt⟩ (rare.getD (n - 1) 0), hgrid, ?_, ?_, ?_, ?_,
    ?_, ?_⟩
  · rw [hgrid, ok_bind, hloop, ok_bind, readAt_ok rare (n - 1) 0 (by omega), ok_bind]
    exact writeAt_ok arr _ _ hlt
  · rw [Array.size_set]; exact hsz
  · intro i hi
    have := mul_succ_le_of_lt ratio i (n - 1) hi
    have hmul2 : ratio * (n - 1) + ratio = n * ratio := by
      have : n - 1 + 1 = n := by omega
      calc ratio * (n - 1) + ratio = ratio * (n - 1 + 1) := by rw [Nat.mul_succ]
        _ = n * ratio := by rw [this, Nat.mul_comm]
    rw [Array.get?_set]
    have e : ¬ (n * ratio - 1 - 1 = ratio * i) := by omega
    simp only [e, if_false]
    exact hcopy i hi
  · intro i hi
    have := mul_succ_le_of_lt ratio i (n - 1) hi
    have hmul2 : ratio * (n - 1) + ratio = n * ratio := by
      have : n - 1 + 1 = n := by omega
      calc ratio * (n - 1) + ratio = ratio * (n - 1 + 1) := by rw [Nat.mul_succ]
        _ = n * ratio := by rw [this, Nat.mul_comm]
    rw [Array.get?_set]
    have e : ¬ (n * ratio - 1 - 1 = ratio * i + 1) := by omega
    simp only [e, if_false]
    exact hfresh i hi
  · rw [Array.get?_set]
    have e : n * ratio - 1 - 1 = n * ratio - 2 := by omega
    simp [e]
  · intro j hj hne
    rw [Array.get?_set]
    have e : ¬ (n * ratio - 1 - 1 = j) := by omega
    simp only [e, if_false]
    exact hzero j (by omega) hne

/-- What a cold start on `n ≥ 2` nodes produces when the integer part of `|b - a|` passes
the grid guard. -/
theorem cold_start_ok (eps : α) (func ant : α → α) (statics : Option (AnalytCache α))
    (n : Nat) (a b : α) (hn : 2 ≤ n)
    (hint : |b - a| < 2 ^ 31) (hfloor : eps ≤ ((⌊|b - a|⌋ : ℤ) : α)) (hab : ¬ a > b)
    (hst : ∀ s, statics = some s → |a - s.prev_a| < 2 ^ 31 ∧ |b - s.prev_b| < 2 ^ 31) :
    (gen_grid_func_and_analyt_integrate eps func ant statics none n 1 a b).count_nodes_out
        = some n
    ∧ ∃ grid arr : Array α,
        gen_uniform_grid eps (|b - a| / ((n - 1 : ℕ) : α)) n a b = .ok grid
        ∧ (gen_grid_func_and_analyt_integrate eps func ant statics none n 1 a b).result = .ok arr
        ∧ arr.size = n
        ∧ (∀ i, i < n → arr[i]? = some (func (grid.getD i 0)))
        ∧ (∀ i, i < n - 1 → grid[i]? = some (a + |b - a| / ((n - 1 : ℕ) : α) * (i : α)))
        ∧ grid[n - 1]? = some b := by
  obtain ⟨grid, hgrid, hgsz, hpts, hlast⟩ := gen_uniform_grid_ok eps
    (|b - a| / ((n - 1 : ℕ) : α)) a b n hn hint hfloor hab
  obtain ⟨arr, hloop, hsz, hval⟩ := cold_loop_ok func grid n hgsz
  obtain ⟨r, hca⟩ := calc_analyt_ok eps statics a b ant hst
  have heps : ¬ |b - a| < eps := abs_ge_of_floor_ge eps (b - a) hfloor
  have hr1 : ¬ (1 < 1) := by omega
  simp only [gen_grid_func_and_analyt_integrate, not_lt.mpr hn, heps, hab, hr1,
    Option.isNone_none, ne_eq, not_true_eq_false, and_false, if_false, true_and, hca]
  refine ⟨grid, arr, hgrid, ?_, hsz, hval, hpts, hlast⟩
  rw [hgrid, ok_bind, hloop]

end SamplerGuarded
/-! ### Refinement: copied values and the endpoint -/

section RefinementClaims

variable {α : Type} [LinearOrderedField α] [FloorRing α]

end RefinementClaims

/-! ### Node-count law and freshly computed slots for ratios above 2 -/

section RatioThree

/-- With `ratio = 2` the refined grid of `n*2 - 1` nodes contains every coarse node: the
refined point of index `2*i` is the coarse point of index `i` (exact arithmetic). -/
theorem refined_point_eq_coarse_point_ratio_two {α : Type} [LinearOrderedField α]
    (a b : α) (n i : Nat) (hn : 2 ≤ n) :
    a + |b - a| / ((n * 2 - 1 - 1 : ℕ) : α) * ((2 * i : ℕ) : α)
      = a + |b - a| / ((n - 1 : ℕ) : α) * (i : α) := by
  have h1 : n * 2 - 1 - 1 = 2 * (n - 1) := by omega
  have h2 : ((n - 1 : ℕ) : α) ≠ 0 := by
    have : 0 < n - 1 := by omega
    exact_mod_cast this.ne'
  rw [h1]
  simp only [Nat.cast_mul, Nat.cast_ofNat]
  generalize ((n - 1 : ℕ) : α) = c at h2 ⊢
  field_simp
  ring

/-- C4 (defect at `ratio = 3`): for `n = 3` coarse nodes over `[0, 1]` the code's node-count
law gives `3*3 - 1 = 8` refined nodes with step `1/7`; the coarse node of index 1 is `1/2`,
but the refined node of index `ratio*1 = 3` is `3/7`. -/
theorem refined_grid_misses_coarse_node_at_ratio_three :
    gen_uniform_grid (1 / 2 ^ 52 : ℚ) (|1 - 0| / ((3 - 1 : ℕ) : ℚ)) 3 0 1
      = .ok #[0, 1 / 2, 1]
    ∧ gen_uniform_grid (1 / 2 ^ 52 : ℚ) (|1 - 0| / ((3 * 3 - 1 - 1 : ℕ) : ℚ)) (3 * 3 - 1) 0 1
      = .ok #[0, 1 / 7, 2 / 7, 3 / 7, 4 / 7, 5 / 7, 6 / 7, 1]
    ∧ (#[0, 1 / 7, 2 / 7, 3 / 7, 4 / 7, 5 / 7, 6 / 7, 1] : Array ℚ)[3 * 1]?
      ≠ (#[0, 1 / 2, 1] : Array ℚ)[1]? := by
  refine ⟨?_, ?_, ?_⟩
  · norm_num [gen_uniform_grid, abs_int, List.range_succ, List.range_zero, writeAt, readAt,
      ok_bind, bind, Except.bind, pure, Except.pure, mkArray, Array.set, List.set,
      Array.getElem?_eq_getElem]
  · norm_num [gen_uniform_grid, abs_int, List.range_succ, List.range_zero, writeAt, readAt,
      ok_bind, bind, Except.bind, pure, Except.pure, mkArray, Array.set, List.set,
      Array.getElem?_eq_getElem]
  · norm_num

/-- C5 (defect at `ratio = 3`): refining the three samples `#[1, 5/4, 2]` of `x² + 1` over
`[0, 1]` with ratio 3 returns eight slots of which the slots 2, 5 and 6 still hold the zero
the array was created with; slot 2 is not the function at the refined node `2/7`. -/
theorem refinement_leaves_slots_unset_at_ratio_three :
    (gen_grid_func_and_analyt_integrate (1 / 2 ^ 52 : ℚ) (fun x => x * x + 1)
        (fun x => x ^ 3 / 3 + x) none (some #[1, 5 / 4, 2]) 3 3 0 1).result
      = .ok #[1, 50 / 49, 0, 5 / 4, 65 / 49, 0, 0, 2]
    ∧ (#[1, 50 / 49, 0, 5 / 4, 65 / 49, 0, 0, 2] : Array ℚ)[3 * 0 + 2]?
      ≠ some ((fun x : ℚ => x * x + 1) (2 / 7)) := by
  refine ⟨?_, ?_⟩
  · norm_num [gen_grid_func_and_analyt_integrate, calc_analyt, abs_int, refine_step,
      gen_uniform_grid, size_mul, size_add, size_sub, List.range_succ, List.range_zero,
      writeAt, readAt, ok_bind, bind, Except.bind, pure, Except.pure, mkArray, Array.set,
      List.set, Array.getElem?_eq_getElem]
  · norm_num

end RatioThree

/-! ### Grid builder claims -/

section GridClaims

variable {α : Type} [LinearOrderedField α] [FloorRing α]

/-- For a positive `eps`, the guard `abs(b - a) < eps` of the grid builder, whose unqualified
`abs` keeps only the integer part, fires on every interval shorter than 1. -/
theorem gen_uniform_grid_short_interval (eps step a b : α) (count_nodes : Nat)
    (heps : 0 < eps) (hlt : |b - a| < 1) :
    gen_uniform_grid eps step count_nodes a b = .error .invalidArgument := by
  have hint : |b - a| < 2 ^ 31 := lt_of_lt_of_le hlt (one_le_pow₀ (by norm_num))
  have hfl : (⌊|b - a|⌋ : ℤ) = 0 := Int.floor_eq_zero_iff.mpr ⟨abs_nonneg _, hlt⟩
  unfold gen_uniform_grid
  by_cases h1 : count_nodes < 2
  · rw [if_pos h1]
  · rw [if_neg h1, abs_int_ok _ hint, ok_bind, hfl, Int.cast_zero, if_pos heps]

/-- C6 (defect of the unqualified `abs`): three nodes with step `1/4` over `[0, 1/2]` satisfy
`count_nodes ≥ 2`, `a < b` and `|b-a| ≥ eps`, yet `gen_uniform_grid` returns no sequence: its
guard computes the integer part of `|b-a|`, which is 0, and throws. -/
theorem gen_uniform_grid_elements_fails_on_short_interval :
    (2 ≤ 3 ∧ (0 : ℚ) < 1 / 2 ∧ (1 / 2 ^ 52 : ℚ) ≤ |1 / 2 - 0|)
    ∧ gen_uniform_grid (1 / 2 ^ 52 : ℚ) (1 / 4) 3 0 (1 / 2) = .error .invalidArgument := by
  have habs : |(1 / 2 : ℚ) - 0| = 1 / 2 := by
    rw [sub_zero, abs_of_pos (by norm_num)]
  refine ⟨⟨by decide, by norm_num, by rw [habs]; norm_num⟩, ?_⟩
  exact gen_uniform_grid_short_interval _ _ _ _ _ (by norm_num) (by rw [habs]; norm_num)

end GridClaims

/-! ### Analytic integral cache, cold start, error evaluator -/

section SamplerClaims

variable {α : Type} [LinearOrderedField α] [FloorRing α]

/-- After a call on `[0, 1]`, `calc_analyt` on `[5, 7]` finds both bounds at least `eps` away
from the remembered pair (integer parts 5 and 6), keeps its statics and returns the stored
integral. -/
theorem calc_analyt_stale (ant : ℚ → ℚ) :
    calc_analyt (1 / 2 ^ 52 : ℚ) (some ⟨0, 1, ant 1 - ant 0⟩) 5 7 ant
      = .ok (⟨0, 1, ant 1 - ant 0⟩, ant 1 - ant 0) := by
  have h5 : abs_int ((5 : ℚ) - 0) = .ok 5 := by norm_num [abs_int]
  have h6 : abs_int ((7 : ℚ) - 1) = .ok 6 := by norm_num [abs_int]
  have c5 : ¬ (5 : ℚ) < 1 / 2 ^ 52 := by norm_num
  have c6 : ¬ (6 : ℚ) < 1 / 2 ^ 52 := by norm_num
  simp only [calc_analyt, h5, h6, ok_bind, c5, c6, if_false]
  rfl

/-- C8 (defect): two valid cold-start calls in a row, first over `[0, 1]`, then over
`[5, 7]`.  The second call succeeds, but both of its bounds differ from the remembered pair,
so the comparison in `calc_analyt` skips the update and the call outputs the integral of the
first call, `ant 1 - ant 0`, instead of `ant 7 - ant 5`. -/
theorem analytic_integral_stale_when_both_bounds_change (func ant : ℚ → ℚ) :
    (gen_grid_func_and_analyt_integrate (1 / 2 ^ 52 : ℚ) func ant none none 2 1 0 1).analytical_integral
      = some (ant 1 - ant 0)
    ∧ (gen_grid_func_and_analyt_integrate (1 / 2 ^ 52 : ℚ) func ant
        (gen_grid_func_and_analyt_integrate (1 / 2 ^ 52 : ℚ) func ant none none 2 1 0 1).statics
        none 2 1 5 7).result = .ok #[func 5, func 7]
    ∧ (gen_grid_func_and_analyt_integrate (1 / 2 ^ 52 : ℚ) func ant
        (gen_grid_func_and_analyt_integrate (1 / 2 ^ 52 : ℚ) func ant none none 2 1 0 1).statics
        none 2 1 5 7).analytical_integral = some (ant 1 - ant 0) := by
  have hs : (gen_grid_func_and_analyt_integrate (1 / 2 ^ 52 : ℚ) func ant none none 2 1 0
      1).statics = some ⟨0, 1, ant 1 - ant 0⟩ := by
    norm_num [gen_grid_func_and_analyt_integrate, calc_analyt, abs_int, ok_bind, bind,
      Except.bind, pure, Except.pure]
  have hguard : ¬ |(7 : ℚ) - 5| < 1 / 2 ^ 52 := by norm_num
  have hab : ¬ (5 : ℚ) > 7 := by norm_num
  rw [hs]
  refine ⟨?_, ?_, ?_⟩
  · norm_num [gen_grid_func_and_analyt_integrate, calc_analyt, abs_int, ok_bind, bind,
      Except.bind, pure, Except.pure]
  · simp only [gen_grid_func_and_analyt_integrate, calc_analyt_stale, hguard, hab]
    norm_num [cold_step, gen_uniform_grid, abs_int, List.range_succ, List.range_zero, writeAt,
      readAt, ok_bind, bind, Except.bind, pure, Except.pure, mkArray, Array.set, List.set,
      Array.getElem?_eq_getElem]
  · simp only [gen_grid_func_and_analyt_integrate, calc_analyt_stale, hguard, hab]
    norm_num

/-- What a cold start returns when the grid builder accepts the bounds: for `n ≥ 2` and
`a < b` whose distance has an integer part that fits an `int` and is at least `eps`, the call
without a prior array and with ratio 1 sets `count_nodes_out = n` and returns an array of
length `n` whose element `i` is `func` at point `i` of the grid that `gen_uniform_grid` builds
with step `|b-a|/(n-1)`: at `a + i*(b-a)/(n-1)` for `i < n-1` and at `b` for `i = n-1`. -/
theorem cold_start_samples_of_accepted (eps : α) (func ant : α → α)
    (statics : Option (AnalytCache α)) (n : Nat) (a b : α) (hn : 2 ≤ n) (hab : a < b)
    (hint : |b - a| < 2 ^ 31) (hfloor : eps ≤ ((⌊|b - a|⌋ : ℤ) : α))
    (hst : ∀ s, statics = some s → |a - s.prev_a| < 2 ^ 31 ∧ |b - s.prev_b| < 2 ^ 31) :
    (gen_grid_func_and_analyt_integrate eps func ant statics none n 1 a b).count_nodes_out
        = some n
    ∧ ∃ grid arr : Array α,
        gen_uniform_grid eps (|b - a| / ((n - 1 : ℕ) : α)) n a b = .ok grid
        ∧ (gen_grid_func_and_analyt_integrate eps func ant statics none n 1 a b).result = .ok arr
        ∧ arr.size = n
        ∧ (∀ i, i < n → arr[i]? = grid[i]?.map func)
        ∧ (∀ i : ℕ, i < n - 1 → arr[i]? = some (func (a + (i : α) * (b - a) / ((n : α) - 1))))
        ∧ arr[n - 1]? = some (func b) := by
  obtain ⟨hcount, grid, arr, hgrid, hres, hsz, hval, hpts, hlast⟩ := cold_start_ok eps func ant
    statics n a b hn hint hfloor (not_lt.mpr hab.le) hst
  have hgsz : grid.size = n := by
    obtain ⟨grid', hgrid', hgsz, -, -⟩ := gen_uniform_grid_ok eps
      (|b - a| / ((n - 1 : ℕ) : α)) a b n hn hint hfloor (not_lt.mpr hab.le)
    have hgg : grid' = grid := Except.ok.inj (hgrid'.symm.trans hgrid)
    rw [← hgg]; exact hgsz
  refine ⟨hcount, grid, arr, hgrid, hres, hsz, ?_, ?_, ?_⟩
  · intro i hi
    rw [hval i hi, getElem?_eq_getD grid i 0 (by omega)]; rfl
  · intro i hi
    rw [hval i (by omega), getD_of_getElem? grid i _ 0 (hpts i hi)]
    have habs : |b - a| = b - a := abs_of_pos (sub_pos.mpr hab)
    have hcast : ((n - 1 : ℕ) : α) = (n : α) - 1 := by
      rw [Nat.cast_sub (by omega)]; simp
    rw [habs, hcast]
    congr 2
    ring
  · rw [hval (n - 1) (by omega), getD_of_getElem? grid (n - 1) _ 0 hlast]

/-- C9 (defect of the unqualified `abs`): a cold start on three nodes over `[0, 1/2]` has
`n ≥ 2`, `a < b` and `|b-a| ≥ eps` and passes the entry checks, which use `std::abs`; it sets
`count_nodes_out = 3`, but the grid builder it calls compares the integer part of `|b-a|`,
which is 0, with `eps` and throws, so no array is returned. -/
theorem cold_start_fails_on_short_interval :
    (2 ≤ 3 ∧ (0 : ℚ) < 1 / 2 ∧ (1 / 2 ^ 52 : ℚ) ≤ |1 / 2 - 0|)
    ∧ (gen_grid_func_and_analyt_integrate (1 / 2 ^ 52 : ℚ) (fun x => x * x)
        (fun x => x ^ 3 / 3) none none 3 1 0 (1 / 2)).count_nodes_out = some 3
    ∧ (gen_grid_func_and_analyt_integrate (1 / 2 ^ 52 : ℚ) (fun x => x * x)
        (fun x => x ^ 3 / 3) none none 3 1 0 (1 / 2)).result = .error .invalidArgument := by
  have habs : |(1 / 2 : ℚ) - 0| = 1 / 2 := by
    rw [sub_zero, abs_of_pos (by norm_num)]
  have habs2 : |(1 / 2 : ℚ)| = 1 / 2 := abs_of_pos (by norm_num)
  refine ⟨⟨by decide, by norm_num, by rw [habs]; norm_num⟩, ?_, ?_⟩
  · norm_num [gen_grid_func_and_analyt_integrate, calc_analyt, abs_int, ok_bind, bind,
      Except.bind, pure, Except.pure, habs2]
  · norm_num [gen_grid_func_and_analyt_integrate, calc_analyt, abs_int, ok_bind, bind,
      Except.bind, pure, Except.pure, habs2]
    rw [gen_uniform_grid_short_interval _ _ _ _ _ (by norm_num) (by rw [habs]; norm_num)]

end SamplerClaims

section ErrorEvaluatorClaims

variable {α : Type} [LinearOrderedField α]

/-- Closed form of what `calculate_errors` returns on a 5-slot estimate vector. -/
theorem calculate_errors_ok (analytical : α) (methods : Array α) (hm : methods.size = 5) :
    ∃ errors : Array α, calculate_errors analytical methods = .ok errors ∧ errors.size = 5
      ∧ ∀ i, i < 5 → errors[i]? = some (error_calc analytical (methods.getD i 0)) := by
  have hrange : List.range' Method.Rectangles (Method.Count - Method.Rectangles)
      = List.range 5 := by decide
  unfold calculate_errors
  rw [hrange]
  apply foldlM_range_inv _
    (fun k (errors : Array α) => errors.size = 5
      ∧ ∀ i, i < k → errors[i]? = some (error_calc analytical (methods.getD i 0)))
  · exact ⟨Array.size_mkArray _ _, fun i hi => absurd hi (Nat.not_lt_zero i)⟩
  · intro i s hi ⟨hsz, hP⟩
    have hlt : i < s.size := by omega
    refine ⟨s.set ⟨i, hlt⟩ (error_calc analytical (methods.getD i 0)), ?_, ?_, ?_⟩
    · show (readAt methods i >>= fun m => writeAt s i (error_calc analytical m)) = _
      rw [readAt_ok methods i 0 (by omega), ok_bind]
      exact writeAt_ok s i _ hlt
    · rw [Array.size_set]; exact hsz
    · intro j hj
      rw [Array.get?_set]
      by_cases hij : i = j
      · subst hij; simp
      · simp only [hij, if_false]
        exact hP j (by omega)

/-- C10 as stated fails for a negative analytic value: with `analytic = -1` the estimate
`-1` (distance 0) gets error `0`, the estimate `0` (distance 1) gets error `-1`. -/
theorem calculate_errors_monotone_counterexample :
    ¬ ∀ (analytic : ℚ) (m1 m2 e1 e2 : Array ℚ) (i : Nat),
        analytic ≠ 0 → m1.size = 5 → m2.size = 5 → i < 5 →
        calculate_errors analytic m1 = .ok e1 → calculate_errors analytic m2 = .ok e2 →
        |analytic - m1.getD i 0| ≤ |analytic - m2.getD i 0| →
        e1.getD i 0 ≤ e2.getD i 0 := by
  intro h
  have h1 : calculate_errors (-1 : ℚ) #[-1, -1, -1, -1, -1] = .ok #[0, 0, 0, 0, 0] := by
    norm_num [calculate_errors, error_calc, Method.Rectangles, Method.Count, List.range',
      writeAt, readAt, ok_bind, bind, Except.bind, pure, Except.pure, mkArray, Array.set,
      List.set, Array.getElem?_eq_getElem]
  have h2 : calculate_errors (-1 : ℚ) #[0, 0, 0, 0, 0] = .ok #[-1, -1, -1, -1, -1] := by
    norm_num [calculate_errors, error_calc, Method.Rectangles, Method.Count, List.range',
      writeAt, readAt, ok_bind, bind, Except.bind, pure, Except.pure, mkArray, Array.set,
      List.set, Array.getElem?_eq_getElem]
  have := h (-1) #[-1, -1, -1, -1, -1] #[0, 0, 0, 0, 0] #[0, 0, 0, 0, 0]
    #[-1, -1, -1, -1, -1] 0 (by norm_num) rfl rfl (by decide) h1 h2 (by norm_num [Array.getD])
  norm_num [Array.getD] at this

/-- C10 amended: for a positive analytic value `calculate_errors` is monotonic in
`|analytic - estimate[i]|`: if slot `i` of `m1` is at most as far from `analytic` as slot `i`
of `m2`, the relative error computed for `m1` in slot `i` is at most the one for `m2`. -/
theorem calculate_errors_monotone (analytic : α) (m1 m2 : Array α) (i : Nat)
    (hpos : 0 < analytic) (h1 : m1.size = 5) (h2 : m2.size = 5) (hi : i < 5)
    (hle : |analytic - m1.getD i 0| ≤ |analytic - m2.getD i 0|) :
    ∃ e1 e2 : Array α, calculate_errors analytic m1 = .ok e1
      ∧ calculate_errors analytic m2 = .ok e2
      ∧ e1.getD i 0 = |analytic - m1.getD i 0| / analytic
      ∧ e2.getD i 0 = |analytic - m2.getD i 0| / analytic
      ∧ e1.getD i 0 ≤ e2.getD i 0 := by
  obtain ⟨e1, he1, -, hv1⟩ := calculate_errors_ok analytic m1 h1
  obtain ⟨e2, he2, -, hv2⟩ := calculate_errors_ok analytic m2 h2
  have g1 : e1.getD i 0 = |analytic - m1.getD i 0| / analytic :=
    getD_of_getElem? e1 i _ 0 (hv1 i hi)
  have g2 : e2.getD i 0 = |analytic - m2.getD i 0| / analytic :=
    getD_of_getElem? e2 i _ 0 (hv2 i hi)
  refine ⟨e1, e2, he1, he2, g1, g2, ?_⟩
  rw [g1, g2]
  exact div_le_div_of_nonneg_right hle hpos.le

/-- Instance of C10 amended: analytic value 2, estimates 2 and 3 in slot 0. -/
theorem calculate_errors_monotone_witness :
    ∃ e1 e2 : Array ℚ, calculate_errors (2 : ℚ) #[2, 2, 2, 2, 2] = .ok e1
      ∧ calculate_errors (2 : ℚ) #[3, 3, 3, 3, 3] = .ok e2
      ∧ e1.getD 0 0 = |(2 : ℚ) - (#[2, 2, 2, 2, 2] : Array ℚ).getD 0 0| / 2
      ∧ e2.getD 0 0 = |(2 : ℚ) - (#[3, 3, 3, 3, 3] : Array ℚ).getD 0 0| / 2
      ∧ e1.getD 0 0 ≤ e2.getD 0 0 :=
  calculate_errors_monotone (2 : ℚ) #[2, 2, 2, 2, 2] #[3, 3, 3, 3, 3] 0 (by norm_num) rfl rfl
    (by decide) (by norm_num [Array.getD])

end ErrorEvaluatorClaims

/-! ### Entry validation -/

section Validation

theorem bind_ne_throw {β γ : Type} (x : Except Fault β) (f : β → Except Fault γ)
    (hx : x ≠ .error .invalidArgument) (hf : ∀ v, f v ≠ .error .invalidArgument) :
    (x >>= f) ≠ .error .invalidArgument := by
  cases x with
  | error e =>
    intro h
    apply hx
    cases e with
    | invalidArgument => rfl
    | outOfBounds => exact Fault.noConfusion (Except.error.inj h)
    | intOverflow => exact Fault.noConfusion (Except.error.inj h)
  | ok v => exact hf v

theorem readAt_ne_throw {β : Type} (arr : Array β) (i : Nat) :
    readAt arr i ≠ .error .invalidArgument := by
  unfold readAt
  cases arr[i]? with
  | none => exact fun h => Fault.noConfusion (Except.error.inj h)
  | some v => exact fun h => Except.noConfusion h

theorem writeAt_ne_throw {β : Type} (arr : Array β) (i : Nat) (v : β) :
    writeAt arr i v ≠ .error .invalidArgument := by
  unfold writeAt
  by_cases h : i < arr.size
  · simp only [h, dif_pos]; exact fun h => Except.noConfusion h
  · simp only [h, dif_neg, not_false_eq_true]
    exact fun h => Fault.noConfusion (Except.error.inj h)

theorem pure_ne_throw {β : Type} (v : β) :
    (pure v : Except Fault β) ≠ .error .invalidArgument :=
  fun h => Except.noConfusion h

theorem foldlM_ne_throw {σ ι : Type} (body : σ → ι → Except Fault σ)
    (hbody : ∀ s i, body s i ≠ .error .invalidArgument) (l : List ι) (s : σ) :
    l.foldlM body s ≠ .error .invalidArgument := by
  induction l generalizing s with
  | nil => exact pure_ne_throw s
  | cons i l ih =>
    rw [List.foldlM_cons]
    exact bind_ne_throw _ _ (hbody s i) ih

end Validation

section QuadratureValidation

set_option linter.unusedSectionVars false

variable {α : Type} [Zero α] [One α] [Add α] [Mul α] [Div α] [NatCast α]

theorem accumulate_ne_throw (c : Prop) [Decidable c] (x : α) (stencil : Except Fault α)
    (h : stencil ≠ .error .invalidArgument) :
    accumulate c x stencil ≠ .error .invalidArgument := by
  unfold accumulate
  by_cases hc : c
  · simp only [hc, if_true]
    exact bind_ne_throw _ _ h (fun v => pure_ne_throw _)
  · simp only [hc, if_false]
    exact pure_ne_throw x

theorem rectangles_calc_ne_throw (f : Array α) (step : α) (i : Nat) :
    rectangles_calc f step i ≠ .error .invalidArgument :=
  bind_ne_throw _ _ (readAt_ne_throw f i) (fun _ => pure_ne_throw _)

theorem trapeze_calc_ne_throw (f : Array α) (step : α) (i : Nat) :
    trapeze_calc f step i ≠ .error .invalidArgument :=
  bind_ne_throw _ _ (readAt_ne_throw f i) fun _ =>
    bind_ne_throw _ _ (readAt_ne_throw f (i + 1)) fun _ => pure_ne_throw _

theorem simpson_calc_ne_throw (f : Array α) (step : α) (i : Nat) :
    simpson_calc f step i ≠ .error .invalidArgument :=
  bind_ne_throw _ _ (readAt_ne_throw f i) fun _ =>
    bind_ne_throw _ _ (readAt_ne_throw f (i + 1)) fun _ =>
      bind_ne_throw _ _ (readAt_ne_throw f (i + 2)) fun _ => pure_ne_throw _

theorem newton_cotes_calc_ne_throw (f : Array α) (step : α) (i : Nat) :
    newton_cotes_calc f step i ≠ .error .invalidArgument :=
  bind_ne_throw _ _ (readAt_ne_throw f i) fun _ =>
    bind_ne_throw _ _ (readAt_ne_throw f (i + 1)) fun _ =>
      bind_ne_throw _ _ (readAt_ne_throw f (i + 2)) fun _ =>
        bind_ne_throw _ _ (readAt_ne_throw f (i + 3)) fun _ =>
          bind_ne_throw _ _ (readAt_ne_throw f (i + 4)) fun _ => pure_ne_throw _

theorem gauss_calc_ne_throw (f : Array α) (step : α) (i : Nat) :
    gauss_calc f step i ≠ .error .invalidArgument :=
  bind_ne_throw _ _ (readAt_ne_throw f i) fun _ =>
    bind_ne_throw _ _ (readAt_ne_throw f (i + 1)) fun _ =>
      bind_ne_throw _ _ (readAt_ne_throw f (i + 2)) fun _ => pure_ne_throw _

theorem quad_step_ne_throw (f : Array α) (n : Nat) (step : α) (acc : Accs α) (i : Nat) :
    quad_step f n step acc i ≠ .error .invalidArgument :=
  bind_ne_throw _ _ (accumulate_ne_throw _ _ _ (rectangles_calc_ne_throw f step i)) fun _ =>
    bind_ne_throw _ _ (accumulate_ne_throw _ _ _ (trapeze_calc_ne_throw f step i)) fun _ =>
      bind_ne_throw _ _ (accumulate_ne_throw _ _ _ (simpson_calc_ne_throw f step i)) fun _ =>
        bind_ne_throw _ _ (accumulate_ne_throw _ _ _ (newton_cotes_calc_ne_throw f step i))
          fun _ =>
            bind_ne_throw _ _ (accumulate_ne_throw _ _ _ (gauss_calc_ne_throw f step i))
              fun _ => pure_ne_throw _

/-- Past its two guards `calculate_numerical_integrals` never throws. -/
theorem quadrature_body_ne_throw (f : Array α) (n : Nat) (step : α) (h5 : ¬ n < 5) :
    calculate_numerical_integrals (some f) n step ≠ .error .invalidArgument := by
  unfold calculate_numerical_integrals
  simp only [h5, if_false]
  exact bind_ne_throw _ _ (foldlM_ne_throw _ (quad_step_ne_throw f n step) _ _) fun _ =>
    bind_ne_throw _ _ (writeAt_ne_throw _ _ _) fun _ =>
      bind_ne_throw _ _ (writeAt_ne_throw _ _ _) fun _ =>
        bind_ne_throw _ _ (writeAt_ne_throw _ _ _) fun _ =>
          bind_ne_throw _ _ (writeAt_ne_throw _ _ _) fun _ =>
            bind_ne_throw _ _ (writeAt_ne_throw _ _ _) fun _ => pure_ne_throw _

/-- On an array of length `count_nodes ≥ 5` the call returns a 5-slot vector holding the
five accumulators. -/
theorem quadrature_ok (f : Array α) (n : Nat) (step : α) (hsize : f.size = n) (h5 : 5 ≤ n) :
    ∃ m : Array α, calculate_numerical_integrals (some f) n step = .ok m ∧ m.size = 5
      ∧ m = #[(accsAfter f n step ⟨0, 0, 0, 0, 0⟩ n).rectangles,
              (accsAfter f n step ⟨0, 0, 0, 0, 0⟩ n).trapeze,
              (accsAfter f n step ⟨0, 0, 0, 0, 0⟩ n).simpson,
              (accsAfter f n step ⟨0, 0, 0, 0, 0⟩ n).newton_cotes,
              (accsAfter f n step ⟨0, 0, 0, 0, 0⟩ n).gauss] := by
  refine ⟨_, ?_, ?_, rfl⟩
  · unfold calculate_numerical_integrals
    simp only [not_lt.mpr h5, if_false]
    rw [quad_loop_ok f n step _ hsize n le_rfl]
    rfl
  · rfl

end QuadratureValidation

/-! ### Error handling claims -/

section ErrorClaims

variable {α : Type} [LinearOrderedField α] [FloorRing α]

/-- When `|b - a|` fits an `int`, `gen_uniform_grid` throws exactly when `count_nodes < 2`, or
`a > b`, or the integer part of `|b - a|` is below `eps`; otherwise it returns a grid of
length `count_nodes`. -/
theorem gen_uniform_grid_throws_iff (eps step a b : α) (count_nodes : Nat)
    (hint : |b - a| < 2 ^ 31) :
    (gen_uniform_grid eps step count_nodes a b = .error .invalidArgument
      ↔ count_nodes < 2 ∨ a > b ∨ ((⌊|b - a|⌋ : ℤ) : α) < eps)
    ∧ ((∃ grid : Array α, gen_uniform_grid eps step count_nodes a b = .ok grid
          ∧ grid.size = count_nodes)
      ↔ ¬ (count_nodes < 2 ∨ a > b ∨ ((⌊|b - a|⌋ : ℤ) : α) < eps)) := by
  by_cases hn : count_nodes < 2
  · have hres : gen_uniform_grid eps step count_nodes a b = .error .invalidArgument := by
      simp only [gen_uniform_grid, hn, if_true]
    refine ⟨⟨fun _ => Or.inl hn, fun _ => hres⟩, ⟨?_, fun h => absurd (Or.inl hn) h⟩⟩
    rintro ⟨grid, hg, -⟩
    rw [hres] at hg
    exact Except.noConfusion hg
  by_cases heps : ((⌊|b - a|⌋ : ℤ) : α) < eps
  · have hres : gen_uniform_grid eps step count_nodes a b = .error .invalidArgument := by
      unfold gen_uniform_grid
      rw [if_neg hn, abs_int_ok _ hint, ok_bind, if_pos heps]
    refine ⟨⟨fun _ => Or.inr (Or.inr heps), fun _ => hres⟩,
      ⟨?_, fun h => absurd (Or.inr (Or.inr heps)) h⟩⟩
    rintro ⟨grid, hg, -⟩
    rw [hres] at hg
    exact Except.noConfusion hg
  by_cases hab : a > b
  · have hres : gen_uniform_grid eps step count_nodes a b = .error .invalidArgument := by
      unfold gen_uniform_grid
      rw [if_neg hn, abs_int_ok _ hint, ok_bind, if_neg heps, if_pos hab]
    refine ⟨⟨fun _ => Or.inr (Or.inl hab), fun _ => hres⟩,
      ⟨?_, fun h => absurd (Or.inr (Or.inl hab)) h⟩⟩
    rintro ⟨grid, hg, -⟩
    rw [hres] at hg
    exact Except.noConfusion hg
  · obtain ⟨grid, hg, hsz, -, -⟩ := gen_uniform_grid_ok eps step a b count_nodes
      (not_lt.mp hn) hint (not_lt.mp heps) hab
    have hnone : ¬ (count_nodes < 2 ∨ a > b ∨ ((⌊|b - a|⌋ : ℤ) : α) < eps) := by
      rintro (h | h | h)
      · exact hn h
      · exact hab h
      · exact heps h
    refine ⟨⟨fun h => ?_, fun h => absurd h hnone⟩, ⟨fun _ => hnone, fun _ => ⟨grid, hg, hsz⟩⟩⟩
    rw [hg] at h
    exact Except.noConfusion h

/-- C11 (defect of the unqualified `abs`): for five nodes with step `1/8` over `[1/4, 3/4]`
none of the three stated conditions holds (`count_nodes ≥ 2`, `a ≤ b`, `|b-a| ≥ eps`), yet
`gen_uniform_grid` fails with the invalid-argument condition and returns no grid: its guard
compares the integer part of `|b-a|`, which is 0, with `eps`. -/
theorem gen_uniform_grid_fails_outside_stated_conditions :
    ¬ (5 < 2 ∨ (1 / 4 : ℚ) > 3 / 4 ∨ |(3 / 4 : ℚ) - 1 / 4| < 1 / 2 ^ 52)
    ∧ gen_uniform_grid (1 / 2 ^ 52 : ℚ) (1 / 8) 5 (1 / 4) (3 / 4) = .error .invalidArgument := by
  have habs : |(3 / 4 : ℚ) - 1 / 4| = 1 / 2 := by
    rw [abs_of_pos (by norm_num)]; norm_num
  refine ⟨?_, ?_⟩
  · rw [habs]; norm_num
  · exact gen_uniform_grid_short_interval _ _ _ _ _ (by norm_num) (by rw [habs]; norm_num)

/-- C13: when `count_nodes_init < 2`, or `|b-a| < eps`, or `a > b`, or `ratio < 1`, or the
prior array is absent while `ratio ≠ 1`, `gen_grid_func_and_analyt_integrate` fails with the
invalid-argument condition at entry: no array is produced, neither out-parameter is written
and the statics of `calc_analyt` are the ones the call started with. -/
theorem gen_grid_entry_validation (eps : α) (func ant : α → α)
    (statics : Option (AnalytCache α)) (func_rare : Option (Array α))
    (count_nodes_init ratio : Nat) (a b : α)
    (h : count_nodes_init < 2 ∨ |b - a| < eps ∨ a > b ∨ ratio < 1
          ∨ (func_rare = none ∧ ratio ≠ 1)) :
    (gen_grid_func_and_analyt_integrate eps func ant statics func_rare count_nodes_init ratio
        a b).result = .error .invalidArgument
    ∧ (gen_grid_func_and_analyt_integrate eps func ant statics func_rare count_nodes_init ratio
        a b).count_nodes_out = none
    ∧ (gen_grid_func_and_analyt_integrate eps func ant statics func_rare count_nodes_init ratio
        a b).analytical_integral = none
    ∧ (gen_grid_func_and_analyt_integrate eps func ant statics func_rare count_nodes_init ratio
        a b).statics = statics := by
  have key : gen_grid_func_and_analyt_integrate eps func ant statics func_rare
      count_nodes_init ratio a b
      = { statics := statics, analytical_integral := none, count_nodes_out := none,
          result := .error .invalidArgument } := by
    unfold gen_grid_func_and_analyt_integrate
    by_cases h1 : count_nodes_init < 2
    · simp only [h1, if_true]
    by_cases h2 : |b - a| < eps
    · simp only [h1, h2, if_true, if_false]
    by_cases h3 : a > b
    · simp only [h1, h2, h3, if_true, if_false]
    by_cases h4 : ratio < 1
    · simp only [h1, h2, h3, h4, if_true, if_false]
    · have h5 : func_rare = none ∧ ratio ≠ 1 := by
        rcases h with h | h | h | h | h
        · exact absurd h h1
        · exact absurd h h2
        · exact absurd h h3
        · exact absurd h h4
        · exact h
      have h6 : func_rare.isNone = true ∧ ratio ≠ 1 := ⟨by rw [h5.1]; rfl, h5.2⟩
      rw [if_neg h1, if_neg h2, if_neg h3, if_neg h4, if_pos h6]
  rw [key]
  exact ⟨rfl, rfl, rfl, rfl⟩

/-- Instance of C13: a refinement request with `ratio = 2` but no prior array. -/
theorem gen_grid_entry_validation_witness :
    (gen_grid_func_and_analyt_integrate (1 / 2 ^ 52 : ℚ) (fun x => x * x) (fun x => x ^ 3 / 3)
        (some ⟨0, 1, 1 / 3⟩) none 3 2 0 1).result = .error .invalidArgument
    ∧ (gen_grid_func_and_analyt_integrate (1 / 2 ^ 52 : ℚ) (fun x => x * x) (fun x => x ^ 3 / 3)
        (some ⟨0, 1, 1 / 3⟩) none 3 2 0 1).count_nodes_out = none
    ∧ (gen_grid_func_and_analyt_integrate (1 / 2 ^ 52 : ℚ) (fun x => x * x) (fun x => x ^ 3 / 3)
        (some ⟨0, 1, 1 / 3⟩) none 3 2 0 1).analytical_integral = none
    ∧ (gen_grid_func_and_analyt_integrate (1 / 2 ^ 52 : ℚ) (fun x => x * x) (fun x => x ^ 3 / 3)
        (some ⟨0, 1, 1 / 3⟩) none 3 2 0 1).statics = some ⟨0, 1, 1 / 3⟩ :=
  gen_grid_entry_validation (1 / 2 ^ 52 : ℚ) (fun x => x * x) (fun x => x ^ 3 / 3)
    (some ⟨0, 1, 1 / 3⟩) none 3 2 0 1
    (Or.inr (Or.inr (Or.inr (Or.inr ⟨rfl, by decide⟩))))

end ErrorClaims

section QuadratureErrorClaims

set_option linter.unusedSectionVars false

variable {α : Type} [Zero α] [One α] [Add α] [Mul α] [Div α] [NatCast α]

/-- C12: `calculate_numerical_integrals` fails with the invalid-argument condition exactly
when the sampled array is absent or `count_nodes < 5`; for a present array of `count_nodes`
samples with `count_nodes ≥ 5` it returns a 5-slot vector. -/
theorem calculate_numerical_integrals_fails_iff (func : Option (Array α)) (count_nodes : Nat)
    (step : α) :
    (calculate_numerical_integrals func count_nodes step = .error .invalidArgument
      ↔ func = none ∨ count_nodes < 5)
    ∧ (∀ f : Array α, func = some f → f.size = count_nodes → 5 ≤ count_nodes →
        ∃ m : Array α, calculate_numerical_integrals func count_nodes step = .ok m
          ∧ m.size = 5) := by
  constructor
  · cases func with
    | none => exact ⟨fun _ => Or.inl rfl, fun _ => rfl⟩
    | some f =>
      by_cases h5 : count_nodes < 5
      · refine ⟨fun _ => Or.inr h5, fun _ => ?_⟩
        simp only [calculate_numerical_integrals, h5, if_true]
      · refine ⟨fun h => absurd h (quadrature_body_ne_throw f count_nodes step h5), ?_⟩
        rintro (h | h)
        · exact Option.noConfusion h
        · exact absurd h h5
  · intro f hf hsize h5
    subst hf
    obtain ⟨m, hm, hsz, -⟩ := quadrature_ok f count_nodes step hsize h5
    exact ⟨m, hm, hsz⟩

/-- Instance of C12: five samples are accepted. -/
theorem calculate_numerical_integrals_fails_iff_witness :
    ∃ m : Array ℚ, calculate_numerical_integrals (some #[(1 : ℚ), 2, 3, 4, 5]) 5 (1 / 2) = .ok m
      ∧ m.size = 5 :=
  (calculate_numerical_integrals_fails_iff (some #[(1 : ℚ), 2, 3, 4, 5]) 5 (1 / 2)).2
    #[(1 : ℚ), 2, 3, 4, 5] rfl rfl (by decide)

end QuadratureErrorClaims

/-! ### Memory safety -/

section Safety

theorem readAt_error {β : Type} (arr : Array β) (i : Nat) (h : ¬ i < arr.size) :
    readAt arr i = .error .outOfBounds := by
  unfold readAt
  rw [Array.getElem?_ge arr (not_lt.mp h)]

theorem readAt_ok_iff {β : Type} (arr : Array β) (i : Nat) :
    (∃ v, readAt arr i = .ok v) ↔ i < arr.size := by
  constructor
  · rintro ⟨v, hv⟩
    by_contra h
    rw [readAt_error arr i h] at hv
    exact Except.noConfusion hv
  · intro h
    exact ⟨arr[i], by simp [readAt, Array.getElem?_eq_getElem h]⟩

theorem bind_ok_left {β γ : Type} (x : Except Fault β) (f : β → Except Fault γ) (w : γ)
    (h : (x >>= f) = .ok w) : ∃ v, x = .ok v ∧ f v = .ok w := by
  cases x with
  | error e => exact Except.noConfusion h
  | ok v => exact ⟨v, rfl, h⟩

end Safety

section QuadratureSafety

set_option linter.unusedSectionVars false

variable {α : Type} [Zero α] [One α] [Add α] [Mul α] [Div α] [NatCast α]

/-- The rectangle stencil reads exactly index `i`. -/
theorem rectangles_calc_ok_iff (f : Array α) (step : α) (i : Nat) :
    (∃ v, rectangles_calc f step i = .ok v) ↔ i < f.size := by
  constructor
  · rintro ⟨v, hv⟩
    obtain ⟨v0, h0, -⟩ := bind_ok_left _ _ _ hv
    exact (readAt_ok_iff f i).mp ⟨v0, h0⟩
  · exact fun h => ⟨_, rectangles_calc_ok f step i h⟩

/-- The trapezoid stencil reads up to index `i + 1`. -/
theorem trapeze_calc_ok_iff (f : Array α) (step : α) (i : Nat) :
    (∃ v, trapeze_calc f step i = .ok v) ↔ i + 1 < f.size := by
  constructor
  · rintro ⟨v, hv⟩
    obtain ⟨v0, -, hv⟩ := bind_ok_left _ _ _ hv
    obtain ⟨v1, h1, -⟩ := bind_ok_left _ _ _ hv
    exact (readAt_ok_iff f (i + 1)).mp ⟨v1, h1⟩
  · exact fun h => ⟨_, trapeze_calc_ok f step i h⟩

/-- The Simpson stencil reads up to index `i + 2`. -/
theorem simpson_calc_ok_iff (f : Array α) (step : α) (i : Nat) :
    (∃ v, simpson_calc f step i = .ok v) ↔ i + 2 < f.size := by
  constructor
  · rintro ⟨v, hv⟩
    obtain ⟨v0, -, hv⟩ := bind_ok_left _ _ _ hv
    obtain ⟨v1, -, hv⟩ := bind_ok_left _ _ _ hv
    obtain ⟨v2, h2, -⟩ := bind_ok_left _ _ _ hv
    exact (readAt_ok_iff f (i + 2)).mp ⟨v2, h2⟩
  · exact fun h => ⟨_, simpson_calc_ok f step i h⟩

/-- The Newton-Cotes stencil reads up to index `i + 4`. -/
theorem newton_cotes_calc_ok_iff (f : Array α) (step : α) (i : Nat) :
    (∃ v, newton_cotes_calc f step i = .ok v) ↔ i + 4 < f.size := by
  constructor
  · rintro ⟨v, hv⟩
    obtain ⟨v0, -, hv⟩ := bind_ok_left _ _ _ hv
    obtain ⟨v1, -, hv⟩ := bind_ok_left _ _ _ hv
    obtain ⟨v2, -, hv⟩ := bind_ok_left _ _ _ hv
    obtain ⟨v3, -, hv⟩ := bind_ok_left _ _ _ hv
    obtain ⟨v4, h4, -⟩ := bind_ok_left _ _ _ hv
    exact (readAt_ok_iff f (i + 4)).mp ⟨v4, h4⟩
  · exact fun h => ⟨_, newton_cotes_calc_ok f step i h⟩

/-- The Gauss stencil reads up to index `i + 2`. -/
theorem gauss_calc_ok_iff (f : Array α) (step : α) (i : Nat) :
    (∃ v, gauss_calc f step i = .ok v) ↔ i + 2 < f.size := by
  constructor
  · rintro ⟨v, hv⟩
    obtain ⟨v0, -, hv⟩ := bind_ok_left _ _ _ hv
    obtain ⟨v1, -, hv⟩ := bind_ok_left _ _ _ hv
    obtain ⟨v2, h2, -⟩ := bind_ok_left _ _ _ hv
    exact (readAt_ok_iff f (i + 2)).mp ⟨v2, h2⟩
  · exact fun h => ⟨_, gauss_calc_ok f step i h⟩

/-- Every iteration of the loop completes, whatever the accumulators hold. -/
theorem quad_step_total (f : Array α) (n : Nat) (step : α) (acc : Accs α) (i : Nat)
    (hn : f.size = n) (hi : i < n) :
    ∃ acc', quad_step f n step acc i = .ok acc' := by
  unfold quad_step
  rw [accumulate_ok _ _ _ (rectangles_term f step i)
        (fun _ => rectangles_calc_ok f step i (by omega)),
      accumulate_ok _ _ _ (trapeze_term f step i)
        (fun h => trapeze_calc_ok f step i (by omega)),
      accumulate_ok _ _ _ (simpson_term f step i)
        (fun h => simpson_calc_ok f step i (by omega)),
      accumulate_ok _ _ _ (newton_cotes_term f step i)
        (fun h => newton_cotes_calc_ok f step i (by omega)),
      accumulate_ok _ _ _ (gauss_term f step i)
        (fun h => gauss_calc_ok f step i (by omega))]
  exact ⟨_, rfl⟩

/-- C19: for `count_nodes ≥ 5` every read of `calculate_numerical_integrals` is in bounds.
The subtractions `count_nodes - 1`, `count_nodes - 2`, `count_nodes - 4` of the guards do not
wrap; whenever a rule's guard holds at a loop index `i < count_nodes`, the largest index its
stencil reads (`i`, `i+1`, `i+2`, `i+4`, `i+2`) is below `count_nodes` and the stencil
evaluates; every loop iteration and the whole call complete. -/
theorem quadrature_reads_in_bounds (f : Array α) (count_nodes : Nat) (step : α)
    (hsize : f.size = count_nodes) (h5 : 5 ≤ count_nodes) (hword : count_nodes < 2 ^ 64) :
    (size_sub count_nodes 1 = count_nodes - 1 ∧ 1 ≤ count_nodes)
    ∧ (size_sub count_nodes 2 = count_nodes - 2 ∧ 2 ≤ count_nodes)
    ∧ (size_sub count_nodes 4 = count_nodes - 4 ∧ 4 ≤ count_nodes)
    ∧ (∀ i, i < count_nodes →
        (i % 2 ≠ 0 ∧ i ≠ size_sub count_nodes 1 →
          i < count_nodes ∧ ∃ v, rectangles_calc f step i = .ok v)
        ∧ (i < size_sub count_nodes 1 →
          i + 1 < count_nodes ∧ ∃ v, trapeze_calc f step i = .ok v)
        ∧ (i % 2 = 0 ∧ i < size_sub count_nodes 2 →
          i + 2 < count_nodes ∧ ∃ v, simpson_calc f step i = .ok v)
        ∧ (i % 4 = 0 ∧ i < size_sub count_nodes 4 →
          i + 4 < count_nodes ∧ ∃ v, newton_cotes_calc f step i = .ok v)
        ∧ (i % 2 = 0 ∧ i < size_sub count_nodes 2 →
          i + 2 < count_nodes ∧ ∃ v, gauss_calc f step i = .ok v)
        ∧ ∀ acc, ∃ acc', quad_step f count_nodes step acc i = .ok acc')
    ∧ ∃ m : Array α, calculate_numerical_integrals (some f) count_nodes step = .ok m := by
  have s1 : size_sub count_nodes 1 = count_nodes - 1 := by unfold size_sub; omega
  have s2 : size_sub count_nodes 2 = count_nodes - 2 := by unfold size_sub; omega
  have s4 : size_sub count_nodes 4 = count_nodes - 4 := by unfold size_sub; omega
  refine ⟨⟨s1, by omega⟩, ⟨s2, by omega⟩, ⟨s4, by omega⟩, ?_, ?_⟩
  · intro i hi
    rw [s1, s2, s4]
    refine ⟨fun _ => ⟨hi, _, rectangles_calc_ok f step i (by omega)⟩,
      fun h => ⟨by omega, _, trapeze_calc_ok f step i (by omega)⟩,
      fun h => ⟨by omega, _, simpson_calc_ok f step i (by omega)⟩,
      fun h => ⟨by omega, _, newton_cotes_calc_ok f step i (by omega)⟩,
      fun h => ⟨by omega, _, gauss_calc_ok f step i (by omega)⟩,
      fun acc => quad_step_total f count_nodes step acc i hsize hi⟩
  · obtain ⟨m, hm, -, -⟩ := quadrature_ok f count_nodes step hsize h5
    exact ⟨m, hm⟩

/-- Instance of C19 on seven samples. -/
theorem quadrature_reads_in_bounds_witness :
    (size_sub 7 1 = 7 - 1 ∧ 1 ≤ 7)
    ∧ (size_sub 7 2 = 7 - 2 ∧ 2 ≤ 7)
    ∧ (size_sub 7 4 = 7 - 4 ∧ 4 ≤ 7)
    ∧ (∀ i, i < 7 →
        (i % 2 ≠ 0 ∧ i ≠ size_sub 7 1 →
          i < 7 ∧ ∃ v, rectangles_calc #[(1 : ℚ), 2, 3, 4, 5, 6, 7] (1 / 2) i = .ok v)
        ∧ (i < size_sub 7 1 →
          i + 1 < 7 ∧ ∃ v, trapeze_calc #[(1 : ℚ), 2, 3, 4, 5, 6, 7] (1 / 2) i = .ok v)
        ∧ (i % 2 = 0 ∧ i < size_sub 7 2 →
          i + 2 < 7 ∧ ∃ v, simpson_calc #[(1 : ℚ), 2, 3, 4, 5, 6, 7] (1 / 2) i = .ok v)
        ∧ (i % 4 = 0 ∧ i < size_sub 7 4 →
          i + 4 < 7 ∧ ∃ v, newton_cotes_calc #[(1 : ℚ), 2, 3, 4, 5, 6, 7] (1 / 2) i = .ok v)
        ∧ (i % 2 = 0 ∧ i < size_sub 7 2 →
          i + 2 < 7 ∧ ∃ v, gauss_calc #[(1 : ℚ), 2, 3, 4, 5, 6, 7] (1 / 2) i = .ok v)
        ∧ ∀ acc, ∃ acc', quad_step #[(1 : ℚ), 2, 3, 4, 5, 6, 7] 7 (1 / 2) acc i = .ok acc')
    ∧ ∃ m : Array ℚ,
        calculate_numerical_integrals (some #[(1 : ℚ), 2, 3, 4, 5, 6, 7]) 7 (1 / 2) = .ok m :=
  quadrature_reads_in_bounds #[(1 : ℚ), 2, 3, 4, 5, 6, 7] 7 (1 / 2) rfl (by decide)
    (by norm_num)

end QuadratureSafety

section RefinementSafety

/-- C18 (defect at `ratio = 1`): a call with a prior array and `ratio = 1` passes the entry
validation.  With three coarse samples the output array gets `3*1 - 1 = 2` slots and the
second loop iteration writes slot 2, outside the array; with two coarse samples the inner
`gen_uniform_grid` is asked for a grid of one node and throws. -/
theorem refinement_ratio_one_faults :
    (gen_grid_func_and_analyt_integrate (1 / 2 ^ 52 : ℚ) (fun x => x * x) (fun x => x ^ 3 / 3)
        none (some #[0, 1 / 4, 1]) 3 1 0 1).count_nodes_out = some 2
    ∧ (gen_grid_func_and_analyt_integrate (1 / 2 ^ 52 : ℚ) (fun x => x * x)
        (fun x => x ^ 3 / 3) none (some #[0, 1 / 4, 1]) 3 1 0 1).result
        = .error .outOfBounds
    ∧ (gen_grid_func_and_analyt_integrate (1 / 2 ^ 52 : ℚ) (fun x => x * x)
        (fun x => x ^ 3 / 3) none (some #[0, 1]) 2 1 0 1).result
        = .error .invalidArgument := by
  refine ⟨?_, ?_, ?_⟩
  · norm_num [gen_grid_func_and_analyt_integrate, calc_analyt, abs_int, size_mul, size_sub,
      ok_bind, bind, Except.bind, pure, Except.pure]
  · norm_num [gen_grid_func_and_analyt_integrate, calc_analyt, abs_int, refine_step,
      gen_uniform_grid, size_mul, size_add, size_sub, List.range_succ, List.range_zero,
      writeAt, readAt, ok_bind, bind, Except.bind, pure, Except.pure, mkArray, Array.set,
      List.set, Array.getElem?_eq_getElem]
  · norm_num [gen_grid_func_and_analyt_integrate, calc_analyt, abs_int, refine_step,
      gen_uniform_grid, size_mul, size_add, size_sub, List.range_succ, List.range_zero,
      writeAt, readAt, ok_bind, bind, Except.bind, pure, Except.pure, mkArray, Array.set,
      List.set, Array.getElem?_eq_getElem]

end RefinementSafety

/-! ### Refinement with ratio 2 against sampling from scratch -/

section RatioTwo

variable {α : Type} [LinearOrderedField α] [FloorRing α]

/-- Refining the cold-start array of `n` nodes with ratio 2 gives the array of a cold start
on `2n - 1` nodes (exact arithmetic), when `2n` fits `std::size_t` and the grid builder accepts
the bounds: the integer part of `|b - a|` fits an `int` and is at least `eps`, and so do the
distances to the bounds remembered by the statics each call starts from. -/
theorem refinement_ratio_two_ok (eps : α) (func ant : α → α)
    (s1 s2 s3 : Option (AnalytCache α)) (n : Nat) (a b : α)
    (hn : 2 ≤ n) (hw : n * 2 < 2 ^ 64) (hab : a < b)
    (hint : |b - a| < 2 ^ 31) (hfloor : eps ≤ ((⌊|b - a|⌋ : ℤ) : α))
    (h1 : ∀ s, s1 = some s → |a - s.prev_a| < 2 ^ 31 ∧ |b - s.prev_b| < 2 ^ 31)
    (h2 : ∀ s, s2 = some s → |a - s.prev_a| < 2 ^ 31 ∧ |b - s.prev_b| < 2 ^ 31)
    (h3 : ∀ s, s3 = some s → |a - s.prev_a| < 2 ^ 31 ∧ |b - s.prev_b| < 2 ^ 31) :
    ∃ coarse refined : Array α,
      (gen_grid_func_and_analyt_integrate eps func ant s1 none n 1 a b).result = .ok coarse
      ∧ (gen_grid_func_and_analyt_integrate eps func ant s2 (some coarse) n 2 a b).result
          = .ok refined
      ∧ (gen_grid_func_and_analyt_integrate eps func ant s2 (some coarse) n 2 a b).count_nodes_out
          = some (2 * n - 1)
      ∧ (gen_grid_func_and_analyt_integrate eps func ant s3 none (2 * n - 1) 1 a b).result
          = .ok refined := by
  have hb : ¬ a > b := not_lt.mpr hab.le
  have hcomm : 2 * n = n * 2 := Nat.mul_comm 2 n
  rw [hcomm]
  obtain ⟨-, gridc, coarse, -, hcoarse, hcsz, hcval, hcpts, hclast⟩ :=
    cold_start_ok eps func ant s1 n a b hn hint hfloor hb h1
  obtain ⟨hcount, gridf, refined, hgridf, hrefined, hrsz, hcopy, hfresh, hlast, -⟩ :=
    refinement_ok eps func ant s2 coarse n 2 a b hn le_rfl hw hcsz hint hfloor hb h2
  obtain ⟨-, gridf', fresh, hgridf', hfreshres, hfsz, hfval, hfpts, hflast⟩ :=
    cold_start_ok eps func ant s3 (n * 2 - 1) a b (by omega) hint hfloor hb h3
  have hgg : gridf' = gridf := Except.ok.inj (hgridf'.symm.trans hgridf)
  subst hgg
  refine ⟨coarse, refined, hcoarse, hrefined, hcount, ?_⟩
  rw [hfreshres]
  congr 1
  apply Array.ext
  · rw [hfsz, hrsz]
  · intro j hj1 hj2
    have hj : j < n * 2 - 1 := by omega
    have hsome : fresh[j]? = refined[j]? := by
      rw [hfval j hj]
      by_cases hend : j = n * 2 - 2
      · subst hend
        rw [hlast, getD_of_getElem? coarse (n - 1) _ 0 (hcval (n - 1) (by omega)),
          getD_of_getElem? gridc (n - 1) _ 0 hclast]
        have e : n * 2 - 2 = n * 2 - 1 - 1 := by omega
        rw [e, getD_of_getElem? gridf' (n * 2 - 1 - 1) _ 0 hflast]
      · by_cases hpar : j % 2 = 0
        · obtain ⟨i, rfl⟩ : ∃ i, j = 2 * i := ⟨j / 2, by omega⟩
          have hi : i < n - 1 := by omega
          rw [hcopy i hi, getD_of_getElem? coarse i _ 0 (hcval i (by omega)),
            getD_of_getElem? gridc i _ 0 (hcpts i hi),
            getD_of_getElem? gridf' (2 * i) _ 0 (hfpts (2 * i) (by omega)),
            refined_point_eq_coarse_point_ratio_two a b n i hn]
        · obtain ⟨i, rfl⟩ : ∃ i, j = 2 * i + 1 := ⟨j / 2, by omega⟩
          have hi : i < n - 1 := by omega
          rw [hfresh i hi]
    rw [Array.getElem?_eq_getElem hj1, Array.getElem?_eq_getElem hj2] at hsome
    exact Option.some.inj hsome

/-- C17 (defect of the unqualified `abs`): over `[0, 1/2]` with `n = 3` nodes, which has
`n ≥ 2` and `a < b`, the cold start returns no array to refine, because the grid builder
compares the integer part of `|b-a|`, which is 0, with `eps` and throws; refining the exact
samples `#[0, 1/16, 1/4]` of `x²` with ratio 2 and the cold start on `2*3 - 1 = 5` nodes throw
in the same way, so no refined array equal to a cold-start array is produced. -/
theorem refinement_ratio_two_fails_on_short_interval :
    (gen_grid_func_and_analyt_integrate (1 / 2 ^ 52 : ℚ) (fun x => x * x)
        (fun x => x ^ 3 / 3) none none 3 1 0 (1 / 2)).result = .error .invalidArgument
    ∧ (gen_grid_func_and_analyt_integrate (1 / 2 ^ 52 : ℚ) (fun x => x * x)
        (fun x => x ^ 3 / 3) none (some #[0, 1 / 16, 1 / 4]) 3 2 0 (1 / 2)).result
        = .error .invalidArgument
    ∧ (gen_grid_func_and_analyt_integrate (1 / 2 ^ 52 : ℚ) (fun x => x * x)
        (fun x => x ^ 3 / 3) none none (2 * 3 - 1) 1 0 (1 / 2)).result
        = .error .invalidArgument := by
  have habs : |(1 / 2 : ℚ) - 0| = 1 / 2 := by
    rw [sub_zero, abs_of_pos (by norm_num)]
  have habs2 : |(1 / 2 : ℚ)| = 1 / 2 := abs_of_pos (by norm_num)
  refine ⟨?_, ?_, ?_⟩
  · norm_num [gen_grid_func_and_analyt_integrate, calc_analyt, abs_int, ok_bind, bind,
      Except.bind, pure, Except.pure, habs2]
    rw [gen_uniform_grid_short_interval _ _ _ _ _ (by norm_num) (by rw [habs]; norm_num)]
  · norm_num [gen_grid_func_and_analyt_integrate, calc_analyt, abs_int, size_mul, size_sub,
      ok_bind, bind, Except.bind, pure, Except.pure, habs2]
    rw [gen_uniform_grid_short_interval _ _ _ _ _ (by norm_num) (by rw [habs]; norm_num)]
  · norm_num [gen_grid_func_and_analyt_integrate, calc_analyt, abs_int, ok_bind, bind,
      Except.bind, pure, Except.pure, habs2]
    rw [gen_uniform_grid_short_interval _ _ _ _ _ (by norm_num) (by rw [habs]; norm_num)]

end RatioTwo

/-! ### Each rule's slot as a sum over its stencils (exact arithmetic) -/

section StencilSums

variable {α : Type} [Field α]

/-- In exact arithmetic the running sum `sumOver` is the sum over the selected indices. -/
theorem sumOver_eq_sum (guard : Nat → Bool) (term : Nat → α) (n : Nat) :
    sumOver guard term 0 n = ∑ i ∈ (Finset.range n).filter (fun i => guard i = true), term i := by
  induction n with
  | zero => rfl
  | succ n ih =>
    rw [sumOver_succ, ih, Finset.range_succ, Finset.filter_insert]
    by_cases hg : guard n = true
    · simp only [hg, if_true]
      rw [Finset.sum_insert (by simp), add_comm]
    · simp only [hg, if_false]
      rfl

/-- The odd indices other than `n - 1` are the centres `2j + 1`, `j < (n-1)/2`. -/
theorem sum_rectangles_guard (term : Nat → α) (n : Nat) :
    sumOver (fun i => decide (i % 2 ≠ 0 ∧ i ≠ n - 1)) term 0 n
      = ∑ j ∈ Finset.range ((n - 1) / 2), term (2 * j + 1) := by
  rw [sumOver_eq_sum]
  refine Finset.sum_nbij' (fun i => i / 2) (fun j => 2 * j + 1) ?_ ?_ ?_ ?_ ?_
  · intro i hi
    simp only [Finset.mem_filter, Finset.mem_range, decide_eq_true_eq] at hi ⊢
    omega
  · intro j hj
    simp only [Finset.mem_filter, Finset.mem_range, decide_eq_true_eq] at hj ⊢
    omega
  · intro i hi
    simp only [Finset.mem_filter, Finset.mem_range, decide_eq_true_eq] at hi
    beta_reduce
    omega
  · intro j hj
    beta_reduce
    omega
  · intro i hi
    simp only [Finset.mem_filter, Finset.mem_range, decide_eq_true_eq] at hi
    beta_reduce
    congr 1
    omega

/-- The indices below `n - 1` are all the left ends `j < n - 1`. -/
theorem sum_trapeze_guard (term : Nat → α) (n : Nat) :
    sumOver (fun i => decide (i < n - 1)) term 0 n = ∑ j ∈ Finset.range (n - 1), term j := by
  rw [sumOver_eq_sum]
  refine Finset.sum_nbij' (fun i => i) (fun j => j) ?_ ?_ ?_ ?_ ?_
  · intro i hi
    simp only [Finset.mem_filter, Finset.mem_range, decide_eq_true_eq] at hi ⊢
    omega
  · intro j hj
    simp only [Finset.mem_filter, Finset.mem_range, decide_eq_true_eq] at hj ⊢
    omega
  · intro i _; rfl
  · intro j _; rfl
  · intro i _; rfl

/-- The even indices below `n - 2` are the left ends `2j`, `j < (n-1)/2`. -/
theorem sum_even_guard (term : Nat → α) (n : Nat) :
    sumOver (fun i => decide (i % 2 = 0 ∧ i < n - 2)) term 0 n
      = ∑ j ∈ Finset.range ((n - 1) / 2), term (2 * j) := by
  rw [sumOver_eq_sum]
  refine Finset.sum_nbij' (fun i => i / 2) (fun j => 2 * j) ?_ ?_ ?_ ?_ ?_
  · intro i hi
    simp only [Finset.mem_filter, Finset.mem_range, decide_eq_true_eq] at hi ⊢
    omega
  · intro j hj
    simp only [Finset.mem_filter, Finset.mem_range, decide_eq_true_eq] at hj ⊢
    omega
  · intro i hi
    simp only [Finset.mem_filter, Finset.mem_range, decide_eq_true_eq] at hi
    beta_reduce
    omega
  · intro j hj
    beta_reduce
    omega
  · intro i hi
    simp only [Finset.mem_filter, Finset.mem_range, decide_eq_true_eq] at hi
    beta_reduce
    congr 1
    omega

/-- The multiples of 4 below `n - 4` are the left ends `4j`, `j < (n-1)/4`. -/
theorem sum_fourth_guard (term : Nat → α) (n : Nat) :
    sumOver (fun i => decide (i % 4 = 0 ∧ i < n - 4)) term 0 n
      = ∑ j ∈ Finset.range ((n - 1) / 4), term (4 * j) := by
  rw [sumOver_eq_sum]
  refine Finset.sum_nbij' (fun i => i / 4) (fun j => 4 * j) ?_ ?_ ?_ ?_ ?_
  · intro i hi
    simp only [Finset.mem_filter, Finset.mem_range, decide_eq_true_eq] at hi ⊢
    omega
  · intro j hj
    simp only [Finset.mem_filter, Finset.mem_range, decide_eq_true_eq] at hj ⊢
    omega
  · intro i hi
    simp only [Finset.mem_filter, Finset.mem_range, decide_eq_true_eq] at hi
    beta_reduce
    omega
  · intro j hj
    beta_reduce
    omega
  · intro i hi
    simp only [Finset.mem_filter, Finset.mem_range, decide_eq_true_eq] at hi
    beta_reduce
    congr 1
    omega

/-- On `count_nodes ≥ 5` samples the call returns the five stencil sums: rectangles over the
centres `2j+1`, trapezoids over all left ends, Simpson and Gauss over the left ends `2j`,
`j < (n-1)/2`, and Newton-Cotes over the left ends `4j`, `j < (n-1)/4`. -/
theorem quadrature_slots (f : Array α) (n : Nat) (step : α) (hsize : f.size = n) (h5 : 5 ≤ n) :
    calculate_numerical_integrals (some f) n step = .ok
      #[∑ j ∈ Finset.range ((n - 1) / 2), rectangles_term f step (2 * j + 1),
        ∑ j ∈ Finset.range (n - 1), trapeze_term f step j,
        ∑ j ∈ Finset.range ((n - 1) / 2), simpson_term f step (2 * j),
        ∑ j ∈ Finset.range ((n - 1) / 4), newton_cotes_term f step (4 * j),
        ∑ j ∈ Finset.range ((n - 1) / 2), gauss_term f step (2 * j)] := by
  obtain ⟨m, hm, -, hval⟩ := quadrature_ok f n step hsize h5
  rw [hm, hval]
  simp only [accsAfter, sum_rectangles_guard, sum_trapeze_guard, sum_even_guard,
    sum_fourth_guard]

end StencilSums

/-! ### Constant samples: which sub-intervals each rule covers -/

section ConstantSamples

variable {α : Type} [LinearOrderedField α]

/-- On samples that all equal `c`, the rectangle, Simpson and Gauss slots are `c·step` times
`2·⌊(n-1)/2⌋`, the trapezoid slot is `c·step·(n-1)` and the Newton-Cotes slot is `c·step`
times `4·⌊(n-1)/4⌋`: the number of sub-intervals the rule's stencils cover. -/
theorem quadrature_constant_samples (f : Array α) (n : Nat) (step c : α)
    (hsize : f.size = n) (h5 : 5 ≤ n) (hconst : ∀ i, i < n → f.getD i 0 = c) :
    calculate_numerical_integrals (some f) n step = .ok
      #[c * step * ((2 * ((n - 1) / 2) : ℕ) : α),
        c * step * ((n - 1 : ℕ) : α),
        c * step * ((2 * ((n - 1) / 2) : ℕ) : α),
        c * step * ((4 * ((n - 1) / 4) : ℕ) : α),
        c * step * ((2 * ((n - 1) / 2) : ℕ) : α)] := by
  have hr : ∑ j ∈ Finset.range ((n - 1) / 2), rectangles_term f step (2 * j + 1)
      = c * step * ((2 * ((n - 1) / 2) : ℕ) : α) := by
    rw [Finset.sum_congr rfl (g := fun _ => 2 * step * c)]
    · rw [Finset.sum_const, Finset.card_range, nsmul_eq_mul]; push_cast; ring
    · intro j hj
      rw [Finset.mem_range] at hj
      simp only [rectangles_term, Nat.cast_ofNat]
      rw [hconst (2 * j + 1) (by omega)]
  have ht : ∑ j ∈ Finset.range (n - 1), trapeze_term f step j
      = c * step * ((n - 1 : ℕ) : α) := by
    rw [Finset.sum_congr rfl (g := fun _ => step * c)]
    · rw [Finset.sum_const, Finset.card_range, nsmul_eq_mul]; ring
    · intro j hj
      rw [Finset.mem_range] at hj
      simp only [trapeze_term, Nat.cast_ofNat]
      rw [hconst j (by omega), hconst (j + 1) (by omega)]
      ring
  have hs : ∑ j ∈ Finset.range ((n - 1) / 2), simpson_term f step (2 * j)
      = c * step * ((2 * ((n - 1) / 2) : ℕ) : α) := by
    rw [Finset.sum_congr rfl (g := fun _ => 2 * step * c)]
    · rw [Finset.sum_const, Finset.card_range, nsmul_eq_mul]; push_cast; ring
    · intro j hj
      rw [Finset.mem_range] at hj
      simp only [simpson_term, Nat.cast_ofNat]
      rw [hconst (2 * j) (by omega), hconst (2 * j + 1) (by omega),
        hconst (2 * j + 2) (by omega)]
      ring
  have hnc : ∑ j ∈ Finset.range ((n - 1) / 4), newton_cotes_term f step (4 * j)
      = c * step * ((4 * ((n - 1) / 4) : ℕ) : α) := by
    rw [Finset.sum_congr rfl (g := fun _ => 4 * step * c)]
    · rw [Finset.sum_const, Finset.card_range, nsmul_eq_mul]; push_cast; ring
    · intro j hj
      rw [Finset.mem_range] at hj
      simp only [newton_cotes_term, Nat.cast_ofNat]
      rw [hconst (4 * j) (by omega), hconst (4 * j + 1) (by omega),
        hconst (4 * j + 2) (by omega), hconst (4 * j + 3) (by omega),
        hconst (4 * j + 4) (by omega)]
      ring
  have hg : ∑ j ∈ Finset.range ((n - 1) / 2), gauss_term f step (2 * j)
      = c * step * ((2 * ((n - 1) / 2) : ℕ) : α) := by
    rw [Finset.sum_congr rfl (g := fun _ => 2 * step * c)]
    · rw [Finset.sum_const, Finset.card_range, nsmul_eq_mul]; push_cast; ring
    · intro j hj
      rw [Finset.mem_range] at hj
      simp only [gauss_term, Nat.cast_ofNat]
      rw [hconst (2 * j) (by omega), hconst (2 * j + 1) (by omega),
        hconst (2 * j + 2) (by omega)]
      ring
  rw [quadrature_slots f n step hsize h5, hr, ht, hs, hnc, hg]

/-- C16 (defect in the Newton-Cotes slot): on the configured node count `K = 39`, samples
that are constantly 1 and step 1, the rectangle, trapezoid, Simpson and Gauss slots are
`38 = c·step·(K-1)`, but the Newton-Cotes slot is 36: its stencils start at
`0, 4, …, 32` and leave the last two sub-intervals uncovered. -/
theorem newton_cotes_misses_tail_at_K :
    calculate_numerical_integrals (some (mkArray 39 (1 : ℚ))) 39 1
      = .ok #[38, 38, 38, 36, 38]
    ∧ (36 : ℚ) ≠ 1 * 1 * ((39 : ℚ) - 1) := by
  refine ⟨?_, by norm_num⟩
  rw [quadrature_constant_samples (mkArray 39 (1 : ℚ)) 39 1 1 (Array.size_mkArray 39 1)
    (by decide)
    (by
      intro i hi
      rw [Array.getD_eq_get?, Array.getElem?_mkArray]
      simp [hi])]
  norm_num

end ConstantSamples

/-! ### Exactness on polynomials (real arithmetic) -/

section PolynomialExactness

open Polynomial in
/-- A real polynomial of degree at most 3 written out. -/
theorem eval_cubic (p : Polynomial ℝ) (hdeg : p.natDegree ≤ 3) (x : ℝ) :
    p.eval x = p.coeff 0 + p.coeff 1 * x + p.coeff 2 * x ^ 2 + p.coeff 3 * x ^ 3 := by
  rw [Polynomial.eval_eq_sum_range' (n := 4) (by omega)]
  simp [Finset.sum_range_succ]

open Polynomial in
/-- The integral of a real polynomial of degree at most 3 through its antiderivative. -/
theorem integral_cubic (p : Polynomial ℝ) (hdeg : p.natDegree ≤ 3) (u v : ℝ) :
    (∫ x in u..v, p.eval x)
      = (p.coeff 0 * v + p.coeff 1 / 2 * v ^ 2 + p.coeff 2 / 3 * v ^ 3 + p.coeff 3 / 4 * v ^ 4)
        - (p.coeff 0 * u + p.coeff 1 / 2 * u ^ 2 + p.coeff 2 / 3 * u ^ 3
            + p.coeff 3 / 4 * u ^ 4) := by
  have hder : ∀ x ∈ Set.uIcc u v,
      HasDerivAt (fun y : ℝ => p.coeff 0 * y + p.coeff 1 / 2 * y ^ 2 + p.coeff 2 / 3 * y ^ 3
        + p.coeff 3 / 4 * y ^ 4) (p.eval x) x := by
    intro x _
    have h := (C (p.coeff 0) * X + C (p.coeff 1 / 2) * X ^ 2 + C (p.coeff 2 / 3) * X ^ 3
      + C (p.coeff 3 / 4) * X ^ 4 : Polynomial ℝ).hasDerivAt x
    have e1 : (fun y : ℝ => eval y (C (p.coeff 0) * X + C (p.coeff 1 / 2) * X ^ 2
        + C (p.coeff 2 / 3) * X ^ 3 + C (p.coeff 3 / 4) * X ^ 4 : Polynomial ℝ))
        = fun y : ℝ => p.coeff 0 * y + p.coeff 1 / 2 * y ^ 2 + p.coeff 2 / 3 * y ^ 3
          + p.coeff 3 / 4 * y ^ 4 := by
      funext y; simp
    have e2 : eval x (derivative (C (p.coeff 0) * X + C (p.coeff 1 / 2) * X ^ 2
        + C (p.coeff 2 / 3) * X ^ 3 + C (p.coeff 3 / 4) * X ^ 4 : Polynomial ℝ))
        = p.eval x := by
      rw [eval_cubic p hdeg x]
      simp
      ring
    rw [e1, e2] at h
    exact h
  rw [intervalIntegral.integral_eq_sub_of_hasDerivAt hder
    (p.continuous.intervalIntegrable u v)]

/-- C20: the Simpson slot is exact on cubics.  For every odd `count_nodes ≥ 5`, every step
and every real polynomial `p` of degree at most 3, on the samples `f[i] = p(a + i·step)` the
Simpson slot of `calculate_numerical_integrals` is the integral of `p` over
`[a, a + (count_nodes-1)·step]`. -/
theorem simpson_exact_on_cubics (p : Polynomial ℝ) (f : Array ℝ) (count_nodes : Nat)
    (a step : ℝ) (hdeg : p.natDegree ≤ 3) (hsize : f.size = count_nodes)
    (h5 : 5 ≤ count_nodes) (hodd : count_nodes % 2 = 1)
    (hf : ∀ i : ℕ, i < count_nodes → f.getD i 0 = p.eval (a + (i : ℝ) * step)) :
    ∃ m : Array ℝ, calculate_numerical_integrals (some f) count_nodes step = .ok m
      ∧ m[Method.Simpson]?
          = some (∫ x in a..(a + ((count_nodes : ℝ) - 1) * step), p.eval x) := by
  refine ⟨_, quadrature_slots f count_nodes step hsize h5, ?_⟩
  obtain ⟨G, hG⟩ : ∃ G : ℕ → ℝ, ∀ k : ℕ, G k
      = p.coeff 0 * (a + ((2 * k : ℕ) : ℝ) * step)
        + p.coeff 1 / 2 * (a + ((2 * k : ℕ) : ℝ) * step) ^ 2
        + p.coeff 2 / 3 * (a + ((2 * k : ℕ) : ℝ) * step) ^ 3
        + p.coeff 3 / 4 * (a + ((2 * k : ℕ) : ℝ) * step) ^ 4 := ⟨_, fun _ => rfl⟩
  have hterm : ∀ j ∈ Finset.range ((count_nodes - 1) / 2),
      simpson_term f step (2 * j) = G (j + 1) - G j := by
    intro j hj
    rw [Finset.mem_range] at hj
    simp only [simpson_term, Nat.cast_ofNat]
    rw [hf (2 * j) (by omega), hf (2 * j + 1) (by omega), hf (2 * j + 2) (by omega),
      eval_cubic p hdeg, eval_cubic p hdeg, eval_cubic p hdeg, hG, hG]
    push_cast
    ring
  have hlast : ((2 * ((count_nodes - 1) / 2) : ℕ) : ℝ) = (count_nodes : ℝ) - 1 := by
    have h1 : 2 * ((count_nodes - 1) / 2) = count_nodes - 1 := by omega
    rw [h1, Nat.cast_sub (by omega)]
    simp
  have hsum := Finset.sum_congr rfl hterm
  rw [Finset.sum_range_sub] at hsum
  show some _ = _
  rw [hsum, integral_cubic p hdeg, hG, hG]
  simp only [hlast, Nat.mul_zero, Nat.cast_zero, zero_mul, add_zero]
  rfl

/-- Instance of C20: `p = X ^ 3` sampled at `0, 1, 2, 3, 4`. -/
theorem simpson_exact_on_cubics_witness :
    ∃ m : Array ℝ, calculate_numerical_integrals (some #[(0 : ℝ), 1, 8, 27, 64]) 5 1 = .ok m
      ∧ m[Method.Simpson]?
          = some (∫ x in (0 : ℝ)..(0 + (((5 : ℕ) : ℝ) - 1) * 1),
              (Polynomial.X ^ 3 : Polynomial ℝ).eval x) :=
  simpson_exact_on_cubics (Polynomial.X ^ 3) #[(0 : ℝ), 1, 8, 27, 64] 5 0 1
    (by simp) rfl (by decide) (by decide)
    (by
      intro i hi
      interval_cases i <;> norm_num [Array.getD])

end PolynomialExactness

/-! ### The Gauss slot on polynomials -/

section GaussSlot

/-- C15 (defect): on the samples `0, 1, 4, 9, 16` of `p = X ^ 2` at `0, 1, 2, 3, 4` (five
nodes, step 1) the Gauss slot is `200/9`, while the integral of `p` over `[0, 4]` is `64/3`,
the value the Simpson and Newton-Cotes slots return.  The weights `5/9, 8/9, 5/9` are
applied at the grid nodes `x_i, x_i + step, x_i + 2·step`, not at the Gauss-Legendre nodes. -/
theorem gauss_slot_not_exact_on_square :
    calculate_numerical_integrals (some #[(0 : ℝ), 1, 4, 9, 16]) 5 1
      = .ok #[20, 22, 64 / 3, 64 / 3, 200 / 9]
    ∧ (∫ x in (0 : ℝ)..(0 + (((5 : ℕ) : ℝ) - 1) * 1), (Polynomial.X ^ 2 : Polynomial ℝ).eval x)
      = 64 / 3
    ∧ (#[20, 22, 64 / 3, 64 / 3, 200 / 9] : Array ℝ)[Method.Gauss]?
      ≠ some (∫ x in (0 : ℝ)..(0 + (((5 : ℕ) : ℝ) - 1) * 1),
          (Polynomial.X ^ 2 : Polynomial ℝ).eval x) := by
  have hint : (∫ x in (0 : ℝ)..(0 + (((5 : ℕ) : ℝ) - 1) * 1),
      (Polynomial.X ^ 2 : Polynomial ℝ).eval x) = 64 / 3 := by
    simp only [Polynomial.eval_pow, Polynomial.eval_X]
    rw [integral_pow]
    norm_num
  refine ⟨?_, hint, ?_⟩
  · rw [quadrature_slots #[(0 : ℝ), 1, 4, 9, 16] 5 1 rfl (by decide)]
    have e2 : (5 - 1) / 2 = 2 := by decide
    have e4 : (5 - 1) / 4 = 1 := by decide
    have e1 : 5 - 1 = 4 := by decide
    rw [e2, e4, e1]
    simp only [Finset.sum_range_succ, Finset.sum_range_zero, rectangles_term, trapeze_term,
      simpson_term, newton_cotes_term, gauss_term]
    norm_num [Array.getD]
  · rw [hint]
    norm_num [Method.Gauss]

end GaussSlot

/-! ### The configured run -/

section DriverProofs

variable {α : Type} [LinearOrderedField α] [FloorRing α]

theorem abs_int_zero : abs_int (0 : α) = .ok 0 := by
  have h0 : |(0 : α)| < 2 ^ 31 := by rw [abs_zero]; positivity
  rw [abs_int_ok _ h0, abs_zero, Int.floor_zero, Int.cast_zero]

/-- The first call of `calc_analyt` initialises its statics from its arguments and returns
the integral of those bounds. -/
theorem calc_analyt_first (eps a b : α) (ant : α → α) :
    calc_analyt eps none a b ant = .ok (⟨a, b, ant b - ant a⟩, ant b - ant a) := by
  unfold calc_analyt
  dsimp only
  rw [sub_self, sub_self, abs_int_zero, ok_bind]
  split_ifs
  · rfl
  · rw [ok_bind]; split_ifs; rfl

/-- A call of `calc_analyt` with the bounds its statics remember returns the integral of
those bounds. -/
theorem calc_analyt_same_bounds (eps a b : α) (ant : α → α) :
    calc_analyt eps (some ⟨a, b, ant b - ant a⟩) a b ant
      = .ok (⟨a, b, ant b - ant a⟩, ant b - ant a) := by
  unfold calc_analyt
  dsimp only
  rw [sub_self, sub_self, abs_int_zero, ok_bind]
  split_ifs
  · rfl
  · rw [ok_bind]; split_ifs; rfl

/-- A call that passes the entry validation and whose `calc_analyt` returns assigns
`analytical_integral` and leaves the statics of `calc_analyt` as that lambda returns them. -/
theorem gen_grid_analytic_outputs (eps : α) (func ant : α → α)
    (statics : Option (AnalytCache α)) (func_rare : Option (Array α)) (n ratio : Nat) (a b : α)
    (r : AnalytCache α × α)
    (hn : 2 ≤ n) (heps : ¬ |b - a| < eps) (hab : ¬ a > b) (hr : 1 ≤ ratio)
    (hrare : func_rare = none → ratio = 1)
    (hca : calc_analyt eps statics a b ant = .ok r) :
    (gen_grid_func_and_analyt_integrate eps func ant statics func_rare n ratio a b).analytical_integral
        = some r.2
    ∧ (gen_grid_func_and_analyt_integrate eps func ant statics func_rare n ratio a b).statics
        = some r.1 := by
  have h1 : ¬ n < 2 := by omega
  have h4 : ¬ ratio < 1 := by omega
  have h5 : ¬ (func_rare.isNone = true ∧ ratio ≠ 1) := by
    rintro ⟨hnone, hne⟩
    exact hne (hrare (Option.isNone_iff_eq_none.mp hnone))
  unfold gen_grid_func_and_analyt_integrate
  rw [if_neg h1, if_neg heps, if_neg hab, if_neg h4, if_neg h5]
  dsimp only
  rw [hca]
  cases func_rare with
  | none => exact ⟨rfl, rfl⟩
  | some rare => exact ⟨rfl, rfl⟩

end DriverProofs

section DriverConstants

variable {α : Type} [LinearOrderedField α]

theorem Task_const_A_lt_B : (Task_const.A : α) < Task_const.B := by
  unfold Task_const.A Task_const.B
  norm_num

theorem Task_const_abs : |(Task_const.B : α) - Task_const.A| = 88512 / 10000 := by
  rw [abs_of_pos (sub_pos.mpr Task_const_A_lt_B)]
  unfold Task_const.A Task_const.B
  norm_num

theorem Task_const_H_eq : (Task_const.H : α) = 2766 / 11875 := by
  unfold Task_const.H
  rw [Task_const_abs]
  norm_num [Task_const.K]

theorem Task_const_fits : |(Task_const.B : α) - Task_const.A| < 2 ^ 31 := by
  rw [Task_const_abs]
  norm_num

theorem readOut_some {β : Type} (x : β) : readOut (some x) = .ok x := rfl

end DriverConstants

section DriverRun

variable {α : Type} [LinearOrderedField α] [FloorRing α]

theorem Task_const_floor : (⌊|(Task_const.B : α) - Task_const.A|⌋ : ℤ) = 8 := by
  rw [Task_const_abs, Int.floor_eq_iff]
  constructor <;> norm_num

/-- The configured run completes for every `eps ≤ 8`, the integer part of `|B - A|`.  Its two
sample arrays hold the integrand at the `K = 39` nodes `A + H·i` and at the 77 nodes
`A + (H/2)·i`; each error vector has five slots and holds `error_calc` of the analytic
integral `ant B - ant A` and the five estimates on its array. -/
theorem main_errors_ok (eps : α) (func ant : α → α) (heps : eps ≤ 8) :
    ∃ coarse refined q1 q2 e1 e2 : Array α,
      coarse.size = 39
      ∧ (∀ i : ℕ, i < 39 → coarse.getD i 0 = func (Task_const.A + Task_const.H * (i : α)))
      ∧ refined.size = 77
      ∧ (∀ i : ℕ, i < 77 →
          refined.getD i 0 = func (Task_const.A + Task_const.STEP_H_2 * (i : α)))
      ∧ calculate_numerical_integrals (some coarse) 39 (Task_const.H : α) = .ok q1
      ∧ calculate_numerical_integrals (some refined) 77 (Task_const.STEP_H_2 : α) = .ok q2
      ∧ main_errors eps func ant = .ok (e1, e2)
      ∧ e1.size = 5 ∧ e2.size = 5
      ∧ ∀ i, i < 5 →
          e1.getD i 0 = error_calc (ant Task_const.B - ant Task_const.A) (q1.getD i 0)
          ∧ e2.getD i 0 = error_calc (ant Task_const.B - ant Task_const.A) (q2.getD i 0) := by
  have hlt : (Task_const.A : α) < Task_const.B := Task_const_A_lt_B
  have hint : |(Task_const.B : α) - Task_const.A| < 2 ^ 31 := Task_const_fits
  have hfloor : eps ≤ ((⌊|(Task_const.B : α) - Task_const.A|⌋ : ℤ) : α) := by
    rw [Task_const_floor]; exact_mod_cast heps
  have he : ¬ |(Task_const.B : α) - Task_const.A| < eps :=
    abs_ge_of_floor_ge eps _ hfloor
  have hz : |(0 : α)| < 2 ^ 31 := by rw [abs_zero]; positivity
  have hsame : ∀ s : AnalytCache α,
      some (⟨Task_const.A, Task_const.B, ant Task_const.B - ant Task_const.A⟩ : AnalytCache α)
        = some s →
      |(Task_const.A : α) - s.prev_a| < 2 ^ 31 ∧ |(Task_const.B : α) - s.prev_b| < 2 ^ 31 := by
    intro s hs
    rw [← Option.some.inj hs]
    exact ⟨by rw [sub_self]; exact hz, by rw [sub_self]; exact hz⟩
  have hb : ¬ (Task_const.A : α) > Task_const.B := not_lt.mpr hlt.le
  have habs : |(Task_const.B : α) - Task_const.A| = Task_const.B - Task_const.A :=
    abs_of_pos (sub_pos.mpr hlt)
  -- the first call
  obtain ⟨hcount1, grid1, coarse, -, hres1, hsz1, hval1, hpts1, hlast1⟩ :=
    cold_start_ok eps func ant none 39 (Task_const.A : α) Task_const.B (by decide) hint hfloor
      hb (fun _ h => Option.noConfusion h)
  obtain ⟨hai1, hst1⟩ := gen_grid_analytic_outputs eps func ant none none 39 1
    (Task_const.A : α) Task_const.B _ (by decide) he hb le_rfl (fun _ => rfl)
    (calc_analyt_first eps _ _ ant)
  -- the second call
  obtain ⟨coarse', refined, hres1', hres2, hcount2, hres3⟩ :=
    refinement_ratio_two_ok eps func ant none
      (some ⟨Task_const.A, Task_const.B, ant Task_const.B - ant Task_const.A⟩) none 39
      (Task_const.A : α) Task_const.B (by decide) (by norm_num) hlt hint hfloor
      (fun _ h => Option.noConfusion h) hsame (fun _ h => Option.noConfusion h)
  have hcc : coarse' = coarse := Except.ok.inj (hres1'.symm.trans hres1)
  subst hcc
  obtain ⟨hai2, -⟩ := gen_grid_analytic_outputs eps func ant
    (some ⟨Task_const.A, Task_const.B, ant Task_const.B - ant Task_const.A⟩) (some coarse')
    39 2 (Task_const.A : α) Task_const.B _ (by decide) he hb (by decide)
    (fun h => Option.noConfusion h) (calc_analyt_same_bounds eps _ _ ant)
  obtain ⟨-, grid2, refined', -, hres3', hsz2, hval2, hpts2, hlast2⟩ :=
    cold_start_ok eps func ant none (2 * 39 - 1) (Task_const.A : α) Task_const.B (by decide)
      hint hfloor hb (fun _ h => Option.noConfusion h)
  have hrr : refined' = refined := Except.ok.inj (hres3'.symm.trans hres3)
  subst hrr
  -- quadrature and errors
  obtain ⟨q1, hq1, hq1sz, -⟩ := quadrature_ok coarse' 39 (Task_const.H : α) hsz1 (by decide)
  obtain ⟨q2, hq2, hq2sz, -⟩ := quadrature_ok refined' 77 (Task_const.STEP_H_2 : α) hsz2
    (by decide)
  obtain ⟨e1, he1, he1sz, hv1⟩ := calculate_errors_ok
    (ant (Task_const.B : α) - ant Task_const.A) q1 hq1sz
  obtain ⟨e2, he2, he2sz, hv2⟩ := calculate_errors_ok
    (ant (Task_const.B : α) - ant Task_const.A) q2 hq2sz
  refine ⟨coarse', refined', q1, q2, e1, e2, hsz1, ?_, hsz2, ?_, hq1, hq2, ?_, he1sz, he2sz,
    ?_⟩
  · intro i hi
    rw [getD_of_getElem? coarse' i _ 0 (hval1 i hi)]
    congr 1
    by_cases hlast : i = 38
    · subst hlast
      rw [getD_of_getElem? grid1 38 _ 0 hlast1, Task_const_H_eq]
      unfold Task_const.A Task_const.B
      norm_num
    · rw [getD_of_getElem? grid1 i _ 0 (hpts1 i (by omega))]
      rfl
  · intro i hi
    rw [getD_of_getElem? refined' i _ 0 (hval2 i hi)]
    congr 1
    by_cases hlast : i = 76
    · subst hlast
      rw [getD_of_getElem? grid2 76 _ 0 hlast2]
      unfold Task_const.STEP_H_2
      rw [Task_const_H_eq]
      unfold Task_const.A Task_const.B
      norm_num
    · rw [getD_of_getElem? grid2 i _ 0 (hpts2 i (by omega)), Task_const_abs]
      unfold Task_const.STEP_H_2
      rw [Task_const_H_eq]
      norm_num
  · unfold main_errors
    simp only [Task_const.K]
    rw [hres1, hai1, hcount1, hst1, ok_bind, readOut_some, ok_bind, readOut_some, ok_bind, hq1,
      ok_bind, he1, ok_bind, hres2, hai2, hcount2, ok_bind, readOut_some, ok_bind,
      readOut_some, ok_bind, hq2, ok_bind, he2, ok_bind]
    rfl
  · intro i hi
    exact ⟨getD_of_getElem? e1 i _ 0 (hv1 i hi), getD_of_getElem? e2 i _ 0 (hv2 i hi)⟩

end DriverRun

/-! ### Polynomial bounds for sine and cosine -/

section TaylorBounds

/-- A differentiable function that vanishes at 0 and has a nonnegative derivative on
`[0, ∞)` is nonnegative there. -/
theorem nonneg_of_deriv_nonneg (F F' : ℝ → ℝ) (hF : ∀ x, HasDerivAt F (F' x) x)
    (h0 : F 0 = 0) (hpos : ∀ x, 0 ≤ x → 0 ≤ F' x) : ∀ x, 0 ≤ x → 0 ≤ F x := by
  intro x hx
  have hmono : MonotoneOn F (Set.Ici 0) := by
    apply monotoneOn_of_deriv_nonneg (convex_Ici 0)
    · exact fun y _ => (hF y).continuousAt.continuousWithinAt
    · exact fun y _ => (hF y).differentiableAt.differentiableWithinAt
    · intro y hy
      rw [interior_Ici] at hy
      rw [(hF y).deriv]
      exact hpos y (le_of_lt hy)
  have h := hmono (Set.mem_Ici.mpr le_rfl) (Set.mem_Ici.mpr hx) hx
  rwa [h0] at h

theorem sin_ge_cubic (x : ℝ) (hx : 0 ≤ x) : x - x ^ 3 / 6 ≤ Real.sin x := by
  have h := nonneg_of_deriv_nonneg (fun y => Real.sin y - (y - y ^ 3 / 6))
    (fun y => Real.cos y - (1 - y ^ 2 / 2))
    (by
      intro y
      have hp : HasDerivAt (fun y : ℝ => y - y ^ 3 / 6) (1 - y ^ 2 / 2) y := by
        have := (hasDerivAt_id y).sub ((hasDerivAt_pow 3 y).div_const 6)
        convert this using 1
        norm_num
        ring
      exact (Real.hasDerivAt_sin y).sub hp)
    (by simp)
    (fun y _ => sub_nonneg.mpr (Real.one_sub_sq_div_two_le_cos))
    x hx
  linarith

theorem cos_le_quartic (x : ℝ) (hx : 0 ≤ x) : Real.cos x ≤ 1 - x ^ 2 / 2 + x ^ 4 / 24 := by
  have h := nonneg_of_deriv_nonneg (fun y => (1 - y ^ 2 / 2 + y ^ 4 / 24) - Real.cos y)
    (fun y => (-y + y ^ 3 / 6) + Real.sin y)
    (by
      intro y
      have hp : HasDerivAt (fun y : ℝ => 1 - y ^ 2 / 2 + y ^ 4 / 24) (-y + y ^ 3 / 6) y := by
        have := ((hasDerivAt_const y (1 : ℝ)).sub ((hasDerivAt_pow 2 y).div_const 2)).add
          ((hasDerivAt_pow 4 y).div_const 24)
        convert this using 1
        norm_num
        ring
      have := hp.sub (Real.hasDerivAt_cos y)
      convert this using 1
      ring)
    (by simp)
    (fun y hy => by have := sin_ge_cubic y hy; linarith)
    x hx
  linarith

theorem sin_le_quintic (x : ℝ) (hx : 0 ≤ x) :
    Real.sin x ≤ x - x ^ 3 / 6 + x ^ 5 / 120 := by
  have h := nonneg_of_deriv_nonneg (fun y => (y - y ^ 3 / 6 + y ^ 5 / 120) - Real.sin y)
    (fun y => (1 - y ^ 2 / 2 + y ^ 4 / 24) - Real.cos y)
    (by
      intro y
      have hp : HasDerivAt (fun y : ℝ => y - y ^ 3 / 6 + y ^ 5 / 120)
          (1 - y ^ 2 / 2 + y ^ 4 / 24) y := by
        have := ((hasDerivAt_id y).sub ((hasDerivAt_pow 3 y).div_const 6)).add
          ((hasDerivAt_pow 5 y).div_const 120)
        convert this using 1
        norm_num
        ring
      exact hp.sub (Real.hasDerivAt_sin y))
    (by simp)
    (fun y hy => by have := cos_le_quartic y hy; linarith)
    x hx
  linarith

theorem cos_ge_sextic (x : ℝ) (hx : 0 ≤ x) :
    1 - x ^ 2 / 2 + x ^ 4 / 24 - x ^ 6 / 720 ≤ Real.cos x := by
  have h := nonneg_of_deriv_nonneg
    (fun y => Real.cos y - (1 - y ^ 2 / 2 + y ^ 4 / 24 - y ^ 6 / 720))
    (fun y => (y - y ^ 3 / 6 + y ^ 5 / 120) - Real.sin y)
    (by
      intro y
      have hp : HasDerivAt (fun y : ℝ => 1 - y ^ 2 / 2 + y ^ 4 / 24 - y ^ 6 / 720)
          (-y + y ^ 3 / 6 - y ^ 5 / 120) y := by
        have := (((hasDerivAt_const y (1 : ℝ)).sub ((hasDerivAt_pow 2 y).div_const 2)).add
          ((hasDerivAt_pow 4 y).div_const 24)).sub ((hasDerivAt_pow 6 y).div_const 720)
        convert this using 1
        norm_num
        ring
      have := (Real.hasDerivAt_cos y).sub hp
      convert this using 1
      ring)
    (by simp)
    (fun y hy => by have := sin_le_quintic y hy; linarith)
    x hx
  linarith

end TaylorBounds

/-! ### The five rules on samples of the sine -/

section SineSamples

/-- Telescoping of a sum whose terms, scaled by `s`, are increments of `G`. -/
theorem scaled_sum_telescopes (s : ℝ) (t G : ℕ → ℝ) (m : ℕ)
    (h : ∀ j, j < m → s * t j = G (j + 1) - G j) :
    s * ∑ j ∈ Finset.range m, t j = G m - G 0 := by
  rw [Finset.mul_sum, ← Finset.sum_range_sub G m]
  exact Finset.sum_congr rfl (fun j hj => h j (Finset.mem_range.mp hj))

theorem rectangles_sine_identity (y h : ℝ) :
    Real.sin h * (2 * h * Real.sin y)
      = -(h * Real.cos (y + h)) - -(h * Real.cos (y - h)) := by
  rw [Real.cos_sub, Real.cos_add]
  ring

theorem trapeze_sine_identity (z h : ℝ) :
    Real.sin (h / 2) * (h / 2 * (Real.sin (z - h / 2) + Real.sin (z + h / 2)))
      = -(h / 2 * Real.cos (h / 2) * Real.cos (z + h / 2))
        - -(h / 2 * Real.cos (h / 2) * Real.cos (z - h / 2)) := by
  rw [Real.cos_sub, Real.cos_add, Real.sin_sub, Real.sin_add]
  ring

theorem simpson_sine_identity (y h : ℝ) :
    Real.sin h * (h / 3 * (1 * Real.sin (y - h) + 4 * Real.sin y + 1 * Real.sin (y + h)))
      = -(h / 3 * (Real.cos h + 2) * Real.cos (y + h))
        - -(h / 3 * (Real.cos h + 2) * Real.cos (y - h)) := by
  rw [Real.cos_sub, Real.cos_add, Real.sin_sub, Real.sin_add]
  ring

theorem newton_cotes_sine_identity (y h : ℝ) :
    Real.sin (2 * h) * (2 / 45 * h * (7 * Real.sin (y - 2 * h) + 32 * Real.sin (y - h)
        + 12 * Real.sin y + 32 * Real.sin (y + h) + 7 * Real.sin (y + 2 * h)))
      = -(2 * h / 45 * (7 * Real.cos (2 * h) + 32 * Real.cos h + 6) * Real.cos (y + 2 * h))
        - -(2 * h / 45 * (7 * Real.cos (2 * h) + 32 * Real.cos h + 6)
            * Real.cos (y - 2 * h)) := by
  rw [Real.cos_sub y (2 * h), Real.cos_add y (2 * h), Real.sin_sub y (2 * h),
    Real.sin_add y (2 * h), Real.sin_sub y h, Real.sin_add y h]
  ring

theorem gauss_sine_identity (y h : ℝ) :
    Real.sin h * (5 / 9 * h * Real.sin (y - h) + 8 / 9 * h * Real.sin y
        + 5 / 9 * h * Real.sin (y + h))
      = -(h / 9 * (5 * Real.cos h + 4) * Real.cos (y + h))
        - -(h / 9 * (5 * Real.cos h + 4) * Real.cos (y - h)) := by
  rw [Real.cos_sub, Real.cos_add, Real.sin_sub, Real.sin_add]
  ring

/-- Closed forms of the five slots on samples `f[i] = sin(x0 + h·i)`: each slot, scaled by a
sine of the step, is a multiple of the difference of the cosine over the covered range. -/
theorem sine_samples_slots (f : Array ℝ) (n : Nat) (x0 h : ℝ) (hsize : f.size = n)
    (h5 : 5 ≤ n) (hf : ∀ i : ℕ, i < n → f.getD i 0 = Real.sin (x0 + h * (i : ℝ))) :
    ∃ q : Array ℝ, calculate_numerical_integrals (some f) n h = .ok q
      ∧ Real.sin h * q.getD 0 0
          = h * (Real.cos x0 - Real.cos (x0 + h * ((2 * ((n - 1) / 2) : ℕ) : ℝ)))
      ∧ Real.sin (h / 2) * q.getD 1 0
          = h / 2 * Real.cos (h / 2)
            * (Real.cos x0 - Real.cos (x0 + h * ((n - 1 : ℕ) : ℝ)))
      ∧ Real.sin h * q.getD 2 0
          = h / 3 * (Real.cos h + 2)
            * (Real.cos x0 - Real.cos (x0 + h * ((2 * ((n - 1) / 2) : ℕ) : ℝ)))
      ∧ Real.sin (2 * h) * q.getD 3 0
          = 2 * h / 45 * (7 * Real.cos (2 * h) + 32 * Real.cos h + 6)
            * (Real.cos x0 - Real.cos (x0 + h * ((4 * ((n - 1) / 4) : ℕ) : ℝ)))
      ∧ Real.sin h * q.getD 4 0
          = h / 9 * (5 * Real.cos h + 4)
            * (Real.cos x0 - Real.cos (x0 + h * ((2 * ((n - 1) / 2) : ℕ) : ℝ))) := by
  refine ⟨_, quadrature_slots f n h hsize h5, ?_, ?_, ?_, ?_, ?_⟩
  · -- rectangles
    show Real.sin h * ∑ j ∈ Finset.range ((n - 1) / 2), rectangles_term f h (2 * j + 1) = _
    rw [scaled_sum_telescopes (Real.sin h) _
      (fun j => -(h * Real.cos (x0 + h * ((2 * j : ℕ) : ℝ)))) ((n - 1) / 2)]
    · simp only [Nat.mul_zero, Nat.cast_zero, mul_zero, add_zero]; ring
    · intro j hj
      simp only [rectangles_term, Nat.cast_ofNat]
      rw [hf (2 * j + 1) (by omega)]
      have e1 : x0 + h * ((2 * j : ℕ) : ℝ) = (x0 + h * ((2 * j + 1 : ℕ) : ℝ)) - h := by
        push_cast; ring
      have e2 : x0 + h * ((2 * (j + 1) : ℕ) : ℝ) = (x0 + h * ((2 * j + 1 : ℕ) : ℝ)) + h := by
        push_cast; ring
      rw [e2, e1]
      exact rectangles_sine_identity _ h
  · -- trapezoids
    show Real.sin (h / 2) * ∑ j ∈ Finset.range (n - 1), trapeze_term f h j = _
    rw [scaled_sum_telescopes (Real.sin (h / 2)) _
      (fun j => -(h / 2 * Real.cos (h / 2) * Real.cos (x0 + h * ((j : ℕ) : ℝ)))) (n - 1)]
    · simp only [Nat.cast_zero, mul_zero, add_zero]; ring
    · intro j hj
      simp only [trapeze_term, Nat.cast_ofNat]
      rw [hf j (by omega), hf (j + 1) (by omega)]
      have e2 : x0 + h * ((j + 1 : ℕ) : ℝ) = (x0 + h / 2 + h * (j : ℝ)) + h / 2 := by
        push_cast; ring
      have e1 : x0 + h * ((j : ℕ) : ℝ) = (x0 + h / 2 + h * (j : ℝ)) - h / 2 := by ring
      rw [e2, e1]
      exact trapeze_sine_identity _ h
  · -- Simpson
    show Real.sin h * ∑ j ∈ Finset.range ((n - 1) / 2), simpson_term f h (2 * j) = _
    rw [scaled_sum_telescopes (Real.sin h) _
      (fun j => -(h / 3 * (Real.cos h + 2) * Real.cos (x0 + h * ((2 * j : ℕ) : ℝ))))
      ((n - 1) / 2)]
    · simp only [Nat.mul_zero, Nat.cast_zero, mul_zero, add_zero]; ring
    · intro j hj
      simp only [simpson_term, Nat.cast_ofNat]
      rw [hf (2 * j) (by omega), hf (2 * j + 1) (by omega), hf (2 * j + 2) (by omega)]
      have e1 : x0 + h * ((2 * j : ℕ) : ℝ) = (x0 + h * ((2 * j + 1 : ℕ) : ℝ)) - h := by
        push_cast; ring
      have e2 : x0 + h * ((2 * (j + 1) : ℕ) : ℝ) = (x0 + h * ((2 * j + 1 : ℕ) : ℝ)) + h := by
        push_cast; ring
      have e3 : x0 + h * ((2 * j + 2 : ℕ) : ℝ) = (x0 + h * ((2 * j + 1 : ℕ) : ℝ)) + h := by
        push_cast; ring
      rw [e2, e3, e1]
      exact simpson_sine_identity _ h
  · -- Newton-Cotes
    show Real.sin (2 * h)
      * ∑ j ∈ Finset.range ((n - 1) / 4), newton_cotes_term f h (4 * j) = _
    rw [scaled_sum_telescopes (Real.sin (2 * h)) _
      (fun j => -(2 * h / 45 * (7 * Real.cos (2 * h) + 32 * Real.cos h + 6)
        * Real.cos (x0 + h * ((4 * j : ℕ) : ℝ)))) ((n - 1) / 4)]
    · simp only [Nat.mul_zero, Nat.cast_zero, mul_zero, add_zero]; ring
    · intro j hj
      simp only [newton_cotes_term, Nat.cast_ofNat]
      rw [hf (4 * j) (by omega), hf (4 * j + 1) (by omega), hf (4 * j + 2) (by omega),
        hf (4 * j + 3) (by omega), hf (4 * j + 4) (by omega)]
      have e0 : x0 + h * ((4 * j : ℕ) : ℝ)
          = (x0 + h * ((4 * j + 2 : ℕ) : ℝ)) - 2 * h := by push_cast; ring
      have e1 : x0 + h * ((4 * j + 1 : ℕ) : ℝ)
          = (x0 + h * ((4 * j + 2 : ℕ) : ℝ)) - h := by push_cast; ring
      have e3 : x0 + h * ((4 * j + 3 : ℕ) : ℝ)
          = (x0 + h * ((4 * j + 2 : ℕ) : ℝ)) + h := by push_cast; ring
      have e4 : x0 + h * ((4 * j + 4 : ℕ) : ℝ)
          = (x0 + h * ((4 * j + 2 : ℕ) : ℝ)) + 2 * h := by push_cast; ring
      have e5 : x0 + h * ((4 * (j + 1) : ℕ) : ℝ)
          = (x0 + h * ((4 * j + 2 : ℕ) : ℝ)) + 2 * h := by push_cast; ring
      rw [e5, e4, e3, e1, e0]
      exact newton_cotes_sine_identity _ h
  · -- Gauss
    show Real.sin h * ∑ j ∈ Finset.range ((n - 1) / 2), gauss_term f h (2 * j) = _
    rw [scaled_sum_telescopes (Real.sin h) _
      (fun j => -(h / 9 * (5 * Real.cos h + 4) * Real.cos (x0 + h * ((2 * j : ℕ) : ℝ))))
      ((n - 1) / 2)]
    · simp only [Nat.mul_zero, Nat.cast_zero, mul_zero, add_zero]; ring
    · intro j hj
      simp only [gauss_term, Nat.cast_ofNat]
      rw [hf (2 * j) (by omega), hf (2 * j + 1) (by omega), hf (2 * j + 2) (by omega)]
      have e1 : x0 + h * ((2 * j : ℕ) : ℝ) = (x0 + h * ((2 * j + 1 : ℕ) : ℝ)) - h := by
        push_cast; ring
      have e2 : x0 + h * ((2 * (j + 1) : ℕ) : ℝ) = (x0 + h * ((2 * j + 1 : ℕ) : ℝ)) + h := by
        push_cast; ring
      have e3 : x0 + h * ((2 * j + 2 : ℕ) : ℝ) = (x0 + h * ((2 * j + 1 : ℕ) : ℝ)) + h := by
        push_cast; ring
      rw [e2, e3, e1]
      exact gauss_sine_identity _ h

end SineSamples

/-! ### Halving the step lowers the relative error on the sine -/

section StepHalving

theorem sin_cos_pos_of_le_one (u : ℝ) (hu0 : 0 < u) (hu1 : u ≤ 1) :
    0 < Real.sin u ∧ 0 < Real.cos u ∧ Real.cos u < 1 := by
  have hpi : (3 : ℝ) < Real.pi := Real.pi_gt_three
  have hs : 0 < Real.sin u := Real.sin_pos_of_pos_of_lt_pi hu0 (by linarith)
  have hc : 0 < Real.cos u :=
    Real.cos_pos_of_mem_Ioo ⟨by linarith, by linarith⟩
  refine ⟨hs, hc, ?_⟩
  have hsq := Real.sin_sq_add_cos_sq u
  nlinarith

/-- Relative errors compare like the distances to the analytic value when it is positive. -/
theorem error_calc_lt_of_abs_lt (I Q1 Q2 : ℝ) (hI : 0 < I) (h : |I - Q2| < |I - Q1|) :
    error_calc I Q2 < error_calc I Q1 := by
  unfold error_calc
  exact div_lt_div_of_pos_right h hI

/-- Midpoint rectangles: the estimate is `(h / sin h)·I`, above `I` and decreasing to it. -/
theorem rectangles_halving (u I Q1 Q2 : ℝ) (hu0 : 0 < u) (hu1 : u ≤ 1) (hI : 0 < I)
    (h1 : Real.sin (2 * u) * Q1 = 2 * u * I) (h2 : Real.sin u * Q2 = u * I) :
    |I - Q2| < |I - Q1| := by
  obtain ⟨hs, hc, hc1⟩ := sin_cos_pos_of_le_one u hu0 hu1
  rw [Real.sin_two_mul] at h1
  have hsu : Real.sin u ≤ u := Real.sin_le hu0.le
  generalize Real.sin u = s at *
  generalize Real.cos u = c at *
  have hQ2 : I ≤ Q2 := by
    by_contra hlt
    push_neg at hlt
    nlinarith [mul_pos hs hI, mul_lt_mul_of_pos_left hlt hs]
  have hQ12 : Q1 * c = Q2 := by
    have : s * (Q1 * c) = s * Q2 := by rw [h2]; linarith
    exact mul_left_cancel₀ hs.ne' this
  have hQ2pos : 0 < Q2 := lt_of_lt_of_le hI hQ2
  have hQ1pos : 0 < Q1 := by
    by_contra hle
    push_neg at hle
    nlinarith [mul_nonpos_of_nonpos_of_nonneg hle hc.le]
  have hlt : Q2 < Q1 := by nlinarith
  rw [abs_of_nonpos (by linarith), abs_of_nonpos (by linarith)]
  linarith

/-- Trapezoids: the estimate is `(h/2)·cot(h/2)·I`, below `I` and increasing to it. -/
theorem trapeze_halving (u I Q1 Q2 : ℝ) (hu0 : 0 < u) (hu1 : u ≤ 1) (hI : 0 < I)
    (h1 : Real.sin u * Q1 = u * Real.cos u * I)
    (h2 : Real.sin (u / 2) * Q2 = u / 2 * Real.cos (u / 2) * I) :
    |I - Q2| < |I - Q1| := by
  obtain ⟨hs, hc, hc1⟩ := sin_cos_pos_of_le_one (u / 2) (by linarith) (by linarith)
  have e : u = 2 * (u / 2) := by ring
  have hsin : Real.sin u = 2 * Real.sin (u / 2) * Real.cos (u / 2) := by
    rw [← Real.sin_two_mul, ← e]
  have hcos : Real.cos u = 2 * Real.cos (u / 2) ^ 2 - 1 := by
    rw [← Real.cos_two_mul, ← e]
  rw [hsin, hcos] at h1
  have hsq := Real.sin_sq_add_cos_sq (u / 2)
  have ht1 := sin_ge_cubic (u / 2) (by linarith)
  have ht2 := cos_le_quartic (u / 2) (by linarith)
  obtain ⟨v, hv⟩ : ∃ v, v = u / 2 := ⟨_, rfl⟩
  rw [← hv] at hs hc hc1 h1 h2 hsq ht1 ht2
  have hv0 : 0 < v := by rw [hv]; linarith
  have hv1 : v ≤ 1 / 2 := by rw [hv]; linarith
  have hu : u = 2 * v := by rw [hv]; ring
  rw [hu] at h1
  generalize Real.sin v = s at *
  generalize Real.cos v = c at *
  -- the tangent bound `v·cos v ≤ sin v`
  have htan : v * c ≤ s := by
    have h3 : v * c ≤ v * (1 - v ^ 2 / 2 + v ^ 4 / 24) :=
      mul_le_mul_of_nonneg_left ht2 hv0.le
    have h4 : v * (1 - v ^ 2 / 2 + v ^ 4 / 24) ≤ v - v ^ 3 / 6 := by
      have : 0 ≤ v ^ 3 * (8 - v ^ 2) := by
        apply mul_nonneg (by positivity)
        nlinarith
      nlinarith
    linarith
  have hQ2 : Q2 ≤ I := by
    by_contra hlt
    push_neg at hlt
    nlinarith [mul_lt_mul_of_pos_left hlt hs, mul_le_mul_of_nonneg_right htan hI.le]
  have hdiff : s * c * (Q2 - Q1) = v * I * s ^ 2 := by
    have a1 : s * c * Q2 = c * (v * c * I) := by rw [← h2]; ring
    have a2 : s * c * Q1 = v * (2 * c ^ 2 - 1) * I := by
      have : 2 * (s * c * Q1) = 2 * (v * (2 * c ^ 2 - 1) * I) := by linarith
      linarith
    have : s ^ 2 = 1 - c ^ 2 := by linarith
    rw [mul_sub, a1, a2, this]
    ring
  have hpos : 0 < s * c * (Q2 - Q1) := by
    rw [hdiff]; positivity
  have hlt : Q1 < Q2 := by
    have := (mul_pos_iff_of_pos_left (mul_pos hs hc)).mp hpos
    linarith
  rw [abs_of_nonneg (by linarith), abs_of_nonneg (by linarith)]
  linarith

/-- Simpson: the estimate is `h(cos h + 2)/(3 sin h)·I`, above `I` and decreasing to it. -/
theorem simpson_halving (u I Q1 Q2 : ℝ) (hu0 : 0 < u) (hu1 : u ≤ 1) (hI : 0 < I)
    (h1 : Real.sin (2 * u) * Q1 = 2 * u / 3 * (Real.cos (2 * u) + 2) * I)
    (h2 : Real.sin u * Q2 = u / 3 * (Real.cos u + 2) * I) :
    |I - Q2| < |I - Q1| := by
  obtain ⟨hs, hc, hc1⟩ := sin_cos_pos_of_le_one u hu0 hu1
  rw [Real.sin_two_mul, Real.cos_two_mul] at h1
  have ht1 := sin_le_quintic u hu0.le
  have ht2 := cos_ge_sextic u hu0.le
  generalize Real.sin u = s at *
  generalize Real.cos u = c at *
  -- Cusa-Huygens: `3 sin u ≤ u (cos u + 2)`
  have hcusa : 3 * s ≤ u * (c + 2) := by
    have h3 : u * (1 - u ^ 2 / 2 + u ^ 4 / 24 - u ^ 6 / 720 + 2) ≤ u * (c + 2) :=
      mul_le_mul_of_nonneg_left (by linarith) hu0.le
    have h4 : 3 * (u - u ^ 3 / 6 + u ^ 5 / 120)
        ≤ u * (1 - u ^ 2 / 2 + u ^ 4 / 24 - u ^ 6 / 720 + 2) := by
      have : 0 ≤ u ^ 5 * (12 - u ^ 2) := by
        apply mul_nonneg (by positivity)
        nlinarith
      nlinarith
    linarith
  have hQ2 : I ≤ Q2 := by
    by_contra hlt
    push_neg at hlt
    nlinarith [mul_lt_mul_of_pos_left hlt hs, mul_le_mul_of_nonneg_right hcusa hI.le]
  have hdiff : s * c * (Q1 - Q2) = u / 3 * I * (1 - c) ^ 2 := by
    have a1 : s * c * Q2 = c * (u / 3 * (c + 2) * I) := by rw [← h2]; ring
    have a2 : s * c * Q1 = u / 3 * (2 * c ^ 2 - 1 + 2) * I := by
      have : 2 * (s * c * Q1) = 2 * (u / 3 * (2 * c ^ 2 - 1 + 2) * I) := by linarith
      linarith
    rw [mul_sub, a1, a2]
    ring
  have hpos : 0 < s * c * (Q1 - Q2) := by
    rw [hdiff]
    have : 0 < (1 - c) ^ 2 := by
      apply pow_pos; linarith
    positivity
  have hlt : Q2 < Q1 := by
    have := (mul_pos_iff_of_pos_left (mul_pos hs hc)).mp hpos
    linarith
  rw [abs_of_nonpos (by linarith), abs_of_nonpos (by linarith)]
  linarith

/-- Gauss weights on grid nodes: the estimate is `h(5 cos h + 4)/(9 sin h)·I`, below `I` and
increasing to it. -/
theorem gauss_halving (u I Q1 Q2 : ℝ) (hu0 : 0 < u) (hu1 : u ≤ 1) (hI : 0 < I)
    (h1 : Real.sin (2 * u) * Q1 = 2 * u / 9 * (5 * Real.cos (2 * u) + 4) * I)
    (h2 : Real.sin u * Q2 = u / 9 * (5 * Real.cos u + 4) * I) :
    |I - Q2| < |I - Q1| := by
  obtain ⟨hs, hc, hc1⟩ := sin_cos_pos_of_le_one u hu0 hu1
  rw [Real.sin_two_mul, Real.cos_two_mul] at h1
  have ht1 := sin_ge_cubic u hu0.le
  have ht2 := cos_le_quartic u hu0.le
  generalize Real.sin u = s at *
  generalize Real.cos u = c at *
  have hle : u * (5 * c + 4) ≤ 9 * s := by
    have h3 : u * (5 * c + 4) ≤ u * (5 * (1 - u ^ 2 / 2 + u ^ 4 / 24) + 4) :=
      mul_le_mul_of_nonneg_left (by linarith) hu0.le
    have h4 : u * (5 * (1 - u ^ 2 / 2 + u ^ 4 / 24) + 4) ≤ 9 * (u - u ^ 3 / 6) := by
      have : 0 ≤ u ^ 3 * (24 - 5 * u ^ 2) := by
        apply mul_nonneg (by positivity)
        nlinarith
      nlinarith
    linarith
  have hQ2 : Q2 ≤ I := by
    by_contra hlt
    push_neg at hlt
    nlinarith [mul_lt_mul_of_pos_left hlt hs, mul_le_mul_of_nonneg_right hle hI.le]
  have hdiff : s * c * (Q2 - Q1) = u / 9 * I * ((1 - c) * (1 + 5 * c)) := by
    have a1 : s * c * Q2 = c * (u / 9 * (5 * c + 4) * I) := by rw [← h2]; ring
    have a2 : s * c * Q1 = u / 9 * (5 * (2 * c ^ 2 - 1) + 4) * I := by
      have : 2 * (s * c * Q1) = 2 * (u / 9 * (5 * (2 * c ^ 2 - 1) + 4) * I) := by linarith
      linarith
    rw [mul_sub, a1, a2]
    ring
  have hpos : 0 < s * c * (Q2 - Q1) := by
    rw [hdiff]
    have : 0 < (1 - c) * (1 + 5 * c) := mul_pos (by linarith) (by linarith)
    positivity
  have hlt : Q1 < Q2 := by
    have := (mul_pos_iff_of_pos_left (mul_pos hs hc)).mp hpos
    linarith
  rw [abs_of_nonneg (by linarith), abs_of_nonneg (by linarith)]
  linarith

end StepHalving

/-! ### The Newton-Cotes slot in the configured run -/

section NewtonCotesRun

theorem newton_cotes_poly_upper (t : ℝ) (ht0 : 0 ≤ t) (ht1 : t ≤ 1 / 16) :
    14 * (1 - t / 2 + t ^ 2 / 24) ^ 2 + 32 * (1 - t / 2 + t ^ 2 / 24) - 1
      ≤ (45 + 45 / 1000) * ((1 - t / 6) * (1 - t / 2)) := by
  nlinarith [mul_nonneg ht0 (sub_nonneg.mpr ht1), mul_nonneg (mul_nonneg ht0 ht0) ht0,
    mul_nonneg (mul_nonneg ht0 ht0) (sub_nonneg.mpr ht1),
    mul_nonneg (mul_nonneg (mul_nonneg ht0 ht0) ht0) (sub_nonneg.mpr ht1)]

theorem newton_cotes_poly_lower (t : ℝ) (ht0 : 0 ≤ t) (ht1 : t ≤ 1 / 16) :
    (45 - 45 / 1000) * ((1 - t / 6 + t ^ 2 / 120) * (1 - t / 2 + t ^ 2 / 24))
      ≤ 14 * (1 - t / 2) ^ 2 + 32 * (1 - t / 2) - 1 := by
  nlinarith [mul_nonneg ht0 (sub_nonneg.mpr ht1), mul_nonneg (mul_nonneg ht0 ht0) ht0,
    mul_nonneg (mul_nonneg ht0 ht0) (sub_nonneg.mpr ht1),
    mul_nonneg (mul_nonneg (mul_nonneg ht0 ht0) ht0) (sub_nonneg.mpr ht1)]

/-- On samples of the sine with step `x ≤ 1/4`, the Newton-Cotes estimate over the span its
stencils cover is within a thousandth of the integral over that span. -/
theorem newton_cotes_ratio_bound (x I Q : ℝ) (hx0 : 0 < x) (hx : x ≤ 1 / 4)
    (h : Real.sin (2 * x) * Q
      = 2 * x / 45 * (7 * Real.cos (2 * x) + 32 * Real.cos x + 6) * I) :
    |Q - I| ≤ 1 / 1000 * |I| := by
  obtain ⟨hs, hc, hc1⟩ := sin_cos_pos_of_le_one x hx0 (by linarith)
  rw [Real.sin_two_mul, Real.cos_two_mul] at h
  have hsl := sin_ge_cubic x hx0.le
  have hsu := sin_le_quintic x hx0.le
  have hcl := Real.one_sub_sq_div_two_le_cos (x := x)
  have hcu := cos_le_quartic x hx0.le
  generalize Real.sin x = s at *
  generalize Real.cos x = c at *
  obtain ⟨t, ht⟩ : ∃ t, t = x ^ 2 := ⟨_, rfl⟩
  have ht0 : 0 ≤ t := by rw [ht]; positivity
  have ht1 : t ≤ 1 / 16 := by rw [ht]; nlinarith
  have hsl2 : x * (1 - t / 6) ≤ s := by rw [ht]; linarith
  have hsu2 : s ≤ x * (1 - t / 6 + t ^ 2 / 120) := by rw [ht]; linarith
  have hcl2 : 1 - t / 2 ≤ c := by rw [ht]; linarith
  have hcu2 : c ≤ 1 - t / 2 + t ^ 2 / 24 := by
    have e : x ^ 4 = (x ^ 2) ^ 2 := by ring
    rw [ht, ← e]; exact hcu
  have hcl0 : 0 < 1 - t / 2 := by linarith
  have hsc : 0 < s * c := mul_pos hs hc
  -- the scaled estimate lies between the two polynomial bounds
  have hup : x * (14 * c ^ 2 + 32 * c - 1) ≤ (45 + 45 / 1000) * (s * c) := by
    have h1 : 14 * c ^ 2 + 32 * c - 1
        ≤ 14 * (1 - t / 2 + t ^ 2 / 24) ^ 2 + 32 * (1 - t / 2 + t ^ 2 / 24) - 1 := by
      have := mul_le_mul hcu2 hcu2 hc.le (by linarith)
      nlinarith
    have h2 : x * (1 - t / 6) * (1 - t / 2) ≤ s * c :=
      mul_le_mul hsl2 hcl2 hcl0.le hs.le
    have h3 := newton_cotes_poly_upper t ht0 ht1
    have h4 : x * (14 * c ^ 2 + 32 * c - 1)
        ≤ x * ((45 + 45 / 1000) * ((1 - t / 6) * (1 - t / 2))) :=
      mul_le_mul_of_nonneg_left (le_trans h1 h3) hx0.le
    calc x * (14 * c ^ 2 + 32 * c - 1)
        ≤ x * ((45 + 45 / 1000) * ((1 - t / 6) * (1 - t / 2))) := h4
      _ = (45 + 45 / 1000) * (x * (1 - t / 6) * (1 - t / 2)) := by ring
      _ ≤ (45 + 45 / 1000) * (s * c) := mul_le_mul_of_nonneg_left h2 (by norm_num)
  have hlo : (45 - 45 / 1000) * (s * c) ≤ x * (14 * c ^ 2 + 32 * c - 1) := by
    have h1 : 14 * (1 - t / 2) ^ 2 + 32 * (1 - t / 2) - 1 ≤ 14 * c ^ 2 + 32 * c - 1 := by
      have := mul_le_mul hcl2 hcl2 hcl0.le hc.le
      nlinarith
    have h2 : s * c ≤ x * (1 - t / 6 + t ^ 2 / 120) * (1 - t / 2 + t ^ 2 / 24) :=
      mul_le_mul hsu2 hcu2 hc.le (le_trans hs.le hsu2)
    have h3 := newton_cotes_poly_lower t ht0 ht1
    have h4 : x * ((45 - 45 / 1000) * ((1 - t / 6 + t ^ 2 / 120) * (1 - t / 2 + t ^ 2 / 24)))
        ≤ x * (14 * c ^ 2 + 32 * c - 1) :=
      mul_le_mul_of_nonneg_left (le_trans h3 h1) hx0.le
    calc (45 - 45 / 1000) * (s * c)
        ≤ (45 - 45 / 1000) * (x * (1 - t / 6 + t ^ 2 / 120) * (1 - t / 2 + t ^ 2 / 24)) :=
          mul_le_mul_of_nonneg_left h2 (by norm_num)
      _ = x * ((45 - 45 / 1000) * ((1 - t / 6 + t ^ 2 / 120) * (1 - t / 2 + t ^ 2 / 24))) := by
          ring
      _ ≤ x * (14 * c ^ 2 + 32 * c - 1) := h4
  have hkey : 2 * s * c * (Q - I)
      = 2 / 45 * (x * (14 * c ^ 2 + 32 * c - 1) - 45 * (s * c)) * I := by
    rw [mul_sub, h]; ring
  have habs : |x * (14 * c ^ 2 + 32 * c - 1) - 45 * (s * c)| ≤ 45 / 1000 * (s * c) :=
    abs_le.mpr ⟨by linarith, by linarith⟩
  have h2sc : 0 < 2 * s * c := by positivity
  have hfin : 2 * s * c * |Q - I| ≤ 2 * s * c * (1 / 1000 * |I|) := by
    calc 2 * s * c * |Q - I| = |2 * s * c * (Q - I)| := by
          rw [abs_mul, abs_of_pos h2sc]
      _ = 2 / 45 * |x * (14 * c ^ 2 + 32 * c - 1) - 45 * (s * c)| * |I| := by
          rw [hkey, abs_mul, abs_mul, abs_of_pos (by norm_num : (0 : ℝ) < 2 / 45)]
      _ ≤ 2 / 45 * (45 / 1000 * (s * c)) * |I| := by gcongr
      _ = 2 * s * c * (1 / 1000 * |I|) := by ring
  exact le_of_mul_le_mul_left hfin h2sc

theorem pi_bounds : (314 / 100 : ℝ) < Real.pi ∧ Real.pi < 315 / 100 := by
  have h1 := Real.pi_gt_d2
  have h2 := Real.pi_lt_d2
  norm_num at h1 h2
  exact ⟨by linarith, by linarith⟩

theorem cos_Task_const_A_pos : 0 < Real.cos (Task_const.A : ℝ) := by
  obtain ⟨h1, h2⟩ := pi_bounds
  rw [← Real.cos_add_two_pi]
  apply Real.cos_pos_of_mem_Ioo
  unfold Task_const.A
  constructor
  · linarith
  · linarith

theorem cos_Task_const_B_neg : Real.cos (Task_const.B : ℝ) < 0 := by
  obtain ⟨h1, h2⟩ := pi_bounds
  apply Real.cos_neg_of_pi_div_two_lt_of_lt
  · unfold Task_const.B; linarith
  · unfold Task_const.B; linarith

/-- The analytic integral of the sine over `[A, B]` is positive. -/
theorem sine_integral_pos :
    0 < (fun x : ℝ => -1 * Real.cos x) Task_const.B - (fun x : ℝ => -1 * Real.cos x) Task_const.A := by
  have h1 := cos_Task_const_A_pos
  have h2 := cos_Task_const_B_neg
  show 0 < -1 * Real.cos (Task_const.B : ℝ) - -1 * Real.cos (Task_const.A : ℝ)
  linarith

/-- The part of the integral that the Newton-Cotes stencils on 39 nodes leave out, the
integral of the sine over the last two sub-intervals `[B - 2H, B]`, is at least `1/50`. -/
theorem newton_cotes_tail_gap :
    1 / 50 ≤ Real.cos ((Task_const.B : ℝ) - 2 * Task_const.H) - Real.cos (Task_const.B : ℝ) := by
  obtain ⟨h1, h2⟩ := pi_bounds
  have hH : (Task_const.H : ℝ) = 2766 / 11875 := Task_const_H_eq
  have hB : (Task_const.B : ℝ) = 332 / 100 := rfl
  have key : ∀ y h : ℝ, Real.cos (y - h) - Real.cos (y + h) = 2 * Real.sin y * Real.sin h := by
    intro y h
    rw [Real.cos_sub, Real.cos_add]
    ring
  have hprod : Real.cos ((Task_const.B : ℝ) - 2 * Task_const.H) - Real.cos (Task_const.B : ℝ)
      = 2 * Real.sin ((Task_const.B : ℝ) - Task_const.H) * Real.sin (Task_const.H : ℝ) := by
    have h := key ((Task_const.B : ℝ) - Task_const.H) Task_const.H
    rw [show (Task_const.B : ℝ) - Task_const.H - Task_const.H
        = (Task_const.B : ℝ) - 2 * Task_const.H by ring,
      show (Task_const.B : ℝ) - Task_const.H + Task_const.H = Task_const.B by ring] at h
    exact h
  rw [hprod, ← Real.sin_pi_sub, hH, hB]
  have hz0 : (0 : ℝ) ≤ Real.pi - (332 / 100 - 2766 / 11875) := by linarith
  have hs1 := sin_ge_cubic (Real.pi - (332 / 100 - 2766 / 11875)) hz0
  have hs2 := sin_ge_cubic (2766 / 11875 : ℝ) (by norm_num)
  obtain ⟨z, hz⟩ : ∃ z, z = Real.pi - (332 / 100 - 2766 / 11875 : ℝ) := ⟨_, rfl⟩
  rw [← hz] at hs1 hz0 ⊢
  have hzl : (52 / 1000 : ℝ) ≤ z := by rw [hz]; linarith
  have hzu : z ≤ 63 / 1000 := by rw [hz]; linarith
  have hb1 : (51 / 1000 : ℝ) ≤ Real.sin z := by
    have : z ^ 3 ≤ (63 / 1000) ^ 3 := pow_le_pow_left₀ hz0 hzu 3
    nlinarith
  have hb2 : (23 / 100 : ℝ) ≤ Real.sin (2766 / 11875 : ℝ) := by
    have : (2766 / 11875 : ℝ) - (2766 / 11875) ^ 3 / 6 ≥ 23 / 100 := by norm_num
    linarith
  nlinarith

/-- Newton-Cotes in the configured run: on 39 nodes the stencils stop two sub-intervals
short of `B`, on 77 nodes they reach `B`, so the estimate at the halved step is the closer
one. -/
theorem newton_cotes_halving (I I1 Q1 Q2 : ℝ) (hI : |I| ≤ 2) (hI1 : |I1| ≤ 2)
    (hgap : 1 / 50 ≤ I - I1) (h1 : |Q1 - I1| ≤ 1 / 1000 * |I1|)
    (h2 : |Q2 - I| ≤ 1 / 1000 * |I|) :
    |I - Q2| < |I - Q1| := by
  have a1 : |I - Q2| ≤ 2 / 1000 := by
    rw [abs_sub_comm]; linarith
  have a2 : Q1 - I1 ≤ 2 / 1000 := by
    have := le_abs_self (Q1 - I1)
    linarith
  have a3 : I - Q1 ≤ |I - Q1| := le_abs_self _
  linarith

end NewtonCotesRun

/-! ### Convergence scenario of the configured run -/

section Convergence

/-- C14: convergence scenario of the configured run, in exact real arithmetic.  For the sine
with antiderivative `-cos` over `[A, B] = [-5.5312, 3.32]`, `K = 39` nodes and any `eps ≤ 8`,
`main` obtains the two error vectors, for step `H = |B-A|/(K-1)` on the cold-start array and
for step `H/2` on the array refined with ratio 2, and each of the five rules' relative error
at step `H/2` is strictly smaller than its relative error at step `H`. -/
theorem sine_errors_decrease_at_half_step (eps : ℝ) (heps : eps ≤ 8) :
    ∃ errors_in_h errors_in_h_2 : Array ℝ,
      main_errors eps Real.sin (fun x => -1 * Real.cos x) = .ok (errors_in_h, errors_in_h_2)
      ∧ errors_in_h.size = Method.Count ∧ errors_in_h_2.size = Method.Count
      ∧ ∀ i, i < Method.Count → errors_in_h_2.getD i 0 < errors_in_h.getD i 0 := by
  obtain ⟨coarse, refined, q1, q2, e1, e2, hsz1, hv1, hsz2, hv2, hq1, hq2, hmain, he1, he2,
    herr⟩ := main_errors_ok eps Real.sin (fun x => -1 * Real.cos x) heps
  obtain ⟨q1', hq1', a0, a1, a2, a3, a4⟩ :=
    sine_samples_slots coarse 39 Task_const.A Task_const.H hsz1 (by decide) hv1
  obtain ⟨q2', hq2', b0, b1, b2, b3, b4⟩ :=
    sine_samples_slots refined 77 Task_const.A Task_const.STEP_H_2 hsz2 (by decide) hv2
  have e1q : q1' = q1 := Except.ok.inj (hq1'.symm.trans hq1)
  have e2q : q2' = q2 := Except.ok.inj (hq2'.symm.trans hq2)
  subst e1q e2q
  -- the constants
  have hH : (Task_const.H : ℝ) = 2766 / 11875 := Task_const_H_eq
  have hA : (Task_const.A : ℝ) = -(55312 / 10000) := rfl
  have hB : (Task_const.B : ℝ) = 332 / 100 := rfl
  have hu : (Task_const.STEP_H_2 : ℝ) = 1383 / 11875 := by
    unfold Task_const.STEP_H_2; rw [hH]; norm_num
  have hH2 : (Task_const.H : ℝ) = 2 * Task_const.STEP_H_2 := by rw [hH, hu]; norm_num
  have n38 : (Task_const.A : ℝ) + Task_const.H * ((2 * ((39 - 1) / 2) : ℕ) : ℝ)
      = Task_const.B := by rw [hH, hA, hB]; norm_num
  have n38' : (Task_const.A : ℝ) + Task_const.H * ((39 - 1 : ℕ) : ℝ) = Task_const.B := by
    rw [hH, hA, hB]; norm_num
  have n36 : (Task_const.A : ℝ) + Task_const.H * ((4 * ((39 - 1) / 4) : ℕ) : ℝ)
      = Task_const.B - 2 * Task_const.H := by rw [hH, hA, hB]; norm_num
  have n76 : (Task_const.A : ℝ) + Task_const.STEP_H_2 * ((2 * ((77 - 1) / 2) : ℕ) : ℝ)
      = Task_const.B := by rw [hu, hA, hB]; norm_num
  have n76' : (Task_const.A : ℝ) + Task_const.STEP_H_2 * ((77 - 1 : ℕ) : ℝ)
      = Task_const.B := by rw [hu, hA, hB]; norm_num
  have n76'' : (Task_const.A : ℝ) + Task_const.STEP_H_2 * ((4 * ((77 - 1) / 4) : ℕ) : ℝ)
      = Task_const.B := by rw [hu, hA, hB]; norm_num
  rw [n38] at a0 a2 a4
  rw [n38'] at a1
  rw [n36] at a3
  rw [n76] at b0 b2 b4
  rw [n76'] at b1
  rw [n76''] at b3
  -- the analytic integral
  have hIpos := sine_integral_pos
  have hI : (fun x : ℝ => -1 * Real.cos x) Task_const.B
      - (fun x : ℝ => -1 * Real.cos x) Task_const.A
      = Real.cos (Task_const.A : ℝ) - Real.cos (Task_const.B : ℝ) := by
    show -1 * Real.cos (Task_const.B : ℝ) - -1 * Real.cos (Task_const.A : ℝ) = _
    ring
  have hu0 : (0 : ℝ) < Task_const.STEP_H_2 := by rw [hu]; norm_num
  have hu1 : (Task_const.STEP_H_2 : ℝ) ≤ 1 := by rw [hu]; norm_num
  refine ⟨e1, e2, hmain, he1, he2, fun i hi => ?_⟩
  have hi5 : i < 5 := hi
  rw [(herr i hi5).1, (herr i hi5).2]
  apply error_calc_lt_of_abs_lt _ _ _ hIpos
  rw [hI] at hIpos ⊢
  rw [hH2] at a0 a1 a2 a3 a4
  interval_cases i
  · exact rectangles_halving Task_const.STEP_H_2 _ _ _ hu0 hu1 hIpos a0 b0
  · have e : 2 * (Task_const.STEP_H_2 : ℝ) / 2 = Task_const.STEP_H_2 := by ring
    rw [e] at a1
    exact trapeze_halving Task_const.STEP_H_2 _ _ _ hu0 hu1 hIpos a1 b1
  · exact simpson_halving Task_const.STEP_H_2 _ _ _ hu0 hu1 hIpos a2 b2
  · have hcA := Real.cos_le_one (Task_const.A : ℝ)
    have hcA' := Real.neg_one_le_cos (Task_const.A : ℝ)
    have hcB := Real.cos_le_one (Task_const.B : ℝ)
    have hcB' := Real.neg_one_le_cos (Task_const.B : ℝ)
    have hcC := Real.cos_le_one ((Task_const.B : ℝ) - 2 * (2 * Task_const.STEP_H_2))
    have hcC' := Real.neg_one_le_cos ((Task_const.B : ℝ) - 2 * (2 * Task_const.STEP_H_2))
    have hgap := newton_cotes_tail_gap
    rw [hH2] at hgap
    refine newton_cotes_halving _ _ _ _ (abs_le.mpr ⟨by linarith, by linarith⟩)
      (abs_le.mpr ⟨by linarith, by linarith⟩) (by linarith)
      (newton_cotes_ratio_bound (2 * Task_const.STEP_H_2) _ _ (by linarith)
        (by rw [hu]; norm_num) a3)
      (newton_cotes_ratio_bound Task_const.STEP_H_2 _ _ hu0 (by rw [hu]; norm_num) b3)
  · exact gauss_halving Task_const.STEP_H_2 _ _ _ hu0 hu1 hIpos a4 b4

/-- Instance of C14 at the epsilon of an 80-bit `long double`, `2^-63`. -/
theorem sine_errors_decrease_at_half_step_witness :
    (1 / 2 ^ 63 : ℝ) ≤ 8
    ∧ ∃ errors_in_h errors_in_h_2 : Array ℝ,
      main_errors (1 / 2 ^ 63 : ℝ) Real.sin (fun x => -1 * Real.cos x)
        = .ok (errors_in_h, errors_in_h_2)
      ∧ errors_in_h.size = Method.Count ∧ errors_in_h_2.size = Method.Count
      ∧ ∀ i, i < Method.Count → errors_in_h_2.getD i 0 < errors_in_h.getD i 0 :=
  ⟨by norm_num, sine_errors_decrease_at_half_step (1 / 2 ^ 63) (by norm_num)⟩

end Convergence

end NumericIntegrate
